import Mathlib

/-!
Verification of the chunked ZIP writer (`chunky_zip`).

The development shallowly embeds the repository's Python sources:
`src/chunky_zip/storage_zip.py` (the archive mutator and stored-entry
writer), `src/chunky_zip/compressed_zip.py` (the compressed-entry writer
and the process-wide compressor registry) and
`src/chunky_zip/__init__.py` (`zip_file_in_chunks`).

Bytes are modelled as `Nat`, byte streams as total functions
`Nat → Nat` paired with a write position (unwritten positions read 0),
and the archive file as the persisted byte function together with the
in-memory directory (`filelist`) and the central-directory offset
(`start_dir`).  Library functionality the sources call but that is not
part of the repository (zlib's `crc32`, `zipfile.ZipInfo.FileHeader`,
the reader's local-header parse) is modelled from the spec, as marked
on each such definition.
-/

/-- Little-endian 2-byte encoding of a natural number (low byte first). -/
def enc16 (n : Nat) : List Nat := [n % 256, n / 256 % 256]

/-- Little-endian 4-byte encoding of a natural number. -/
def enc32 (n : Nat) : List Nat :=
  [n % 256, n / 256 % 256, n / 65536 % 256, n / 16777216 % 256]

/-- Little-endian 8-byte encoding of a natural number. -/
def enc64 (n : Nat) : List Nat := enc32 (n % 4294967296) ++ enc32 (n / 4294967296)

/-- One shift-xor round of the reflected CRC-32 polynomial 0xEDB88320. -/
def crc32_round (c : Nat) : Nat :=
  if c % 2 = 1 then Nat.xor (c / 2) 0xEDB88320 else c / 2

/-- Process one input byte into the raw CRC state (xor in, then 8 rounds). -/
def crc32_update (c b : Nat) : Nat := crc32_round^[8] (Nat.xor c b)

/-- Modelled from the spec: `zlib.crc32(data, value)` (zlib is not in `src/`);
a CRC-32 checksum of `data` continued from `value`, with the standard
pre/post complement conditioning around a byte-wise left fold. -/
def crc32 (data : List Nat) (value : Nat) : Nat :=
  Nat.xor (data.foldl crc32_update (Nat.xor value 0xFFFFFFFF)) 0xFFFFFFFF

/-- Compression-method constant `zipfile.ZIP_STORED`. -/
def ZIP_STORED : Nat := 0

/-- Compression-method constant `zipfile.ZIP_DEFLATED`. -/
def ZIP_DEFLATED : Nat := 8

/-- Compression-method constant `zipfile.ZIP_BZIP2`. -/
def ZIP_BZIP2 : Nat := 12

/-- Compression-method constant `zipfile.ZIP_LZMA`. -/
def ZIP_LZMA : Nat := 14

/-- `ZIP64_LIMIT = (1 << 31) - 1` from `storage_zip.py`. -/
def ZIP64_LIMIT : Nat := (1 <<< 31) - 1

/-- The bytes of a filename string (one `Nat` per character). -/
def strBytes (s : String) : List Nat := s.data.map Char.toNat

/-- The mutable entry descriptor mirroring `zipfile.ZipInfo`'s fields used
by the writer: name, method, timestamp, running CRC, sizes and the local
header offset. -/
structure ZipInfo where
  filename : String
  compress_type : Nat
  date_time : Nat
  CRC : Nat
  file_size : Nat
  compress_size : Nat
  header_offset : Nat
deriving DecidableEq

/-- A seekable write stream over an unbounded byte array: `data` gives the
byte at each offset (0 where never written) and `pos` is the cursor. -/
structure WStream where
  data : Nat → Nat
  pos : Nat

/-- `seek`: move the cursor. -/
def WStream.seek (s : WStream) (p : Nat) : WStream := ⟨s.data, p⟩

/-- `write`: overwrite `bs.length` bytes at the cursor and advance it. -/
def WStream.write (s : WStream) (bs : List Nat) : WStream :=
  ⟨fun i => if s.pos ≤ i ∧ i < s.pos + bs.length then bs.getD (i - s.pos) 0 else s.data i,
   s.pos + bs.length⟩

/-- Read `n` bytes starting at offset `off` from a byte function. -/
def readSeg (f : Nat → Nat) (off n : Nat) : List Nat :=
  (List.range n).map fun i => f (off + i)

/-- Reading an index below the length of a list recovers its `getD`. -/
theorem readSeg_getD (f : Nat → Nat) (off n k : Nat) (hk : k < n) :
    (readSeg f off n).getD k 0 = f (off + k) := by
  unfold readSeg
  rw [List.getD_eq_getElem?_getD, List.getElem?_map]
  rw [List.getElem?_range hk]
  rfl

/-- A `readSeg` has the length it asks for. -/
theorem readSeg_length (f : Nat → Nat) (off n : Nat) :
    (readSeg f off n).length = n := by
  simp [readSeg]

/-- Mapping `getD` over the range of a list's length recovers the list. -/
theorem range_map_getD (bs : List Nat) :
    (List.range bs.length).map (fun i => bs.getD i 0) = bs := by
  induction bs with
  | nil => rfl
  | cons a l ih =>
      rw [List.length_cons, List.range_succ_eq_map, List.map_cons, List.map_map]
      have h : ((fun i => (a :: l).getD i 0) ∘ Nat.succ) = fun i => l.getD i 0 := by
        funext i
        simp [Function.comp, List.getD_cons_succ]
      rw [h, ih]
      rfl

/-- Reading back exactly the region a `write` covered yields the written bytes. -/
theorem readSeg_write_self (s : WStream) (p : Nat) (bs : List Nat) :
    readSeg (((s.seek p).write bs).data) p bs.length = bs := by
  unfold readSeg
  have h : ∀ i ∈ List.range bs.length,
      (((s.seek p).write bs).data) (p + i) = bs.getD i 0 := by
    intro i hi
    have hi' : i < bs.length := List.mem_range.mp hi
    simp only [WStream.write, WStream.seek]
    rw [if_pos ⟨Nat.le_add_right _ _, Nat.add_lt_add_left hi' _⟩,
      Nat.add_sub_cancel_left]
  rw [List.map_congr_left h, range_map_getD]

/-- A single byte inside the region a `write` covered. -/
theorem write_data_at (s : WStream) (p : Nat) (bs : List Nat) (k : Nat)
    (hk : k < bs.length) :
    (((s.seek p).write bs).data) (p + k) = bs.getD k 0 := by
  simp only [WStream.write, WStream.seek]
  rw [if_pos ⟨Nat.le_add_right _ _, Nat.add_lt_add_left hk _⟩,
    Nat.add_sub_cancel_left]

/-- A `write` leaves every byte outside its own region unchanged. -/
theorem readSeg_write_outside (s : WStream) (p : Nat) (bs : List Nat)
    (off n : Nat) (h : p + bs.length ≤ off ∨ off + n ≤ p) :
    readSeg (((s.seek p).write bs).data) off n = readSeg s.data off n := by
  unfold readSeg
  refine List.map_congr_left ?_
  intro i hi
  have hi' : i < n := List.mem_range.mp hi
  simp only [WStream.write, WStream.seek]
  rw [if_neg]
  rintro ⟨h1, h2⟩
  rcases h with h | h
  · omega
  · omega

/-- Reading a concatenated region splits at the midpoint. -/
theorem readSeg_add (f : Nat → Nat) (off m k : Nat) :
    readSeg f off (m + k) = readSeg f off m ++ readSeg f (off + m) k := by
  unfold readSeg
  rw [List.range_add, List.map_append, List.map_map]
  congr 1
  refine List.map_congr_left ?_
  intro i _
  simp [Function.comp, Nat.add_assoc]

/-- The zip64 extra field `struct.pack('<HHQQ', 1, 16, file_size, compress_size)`
appended to the local header's extra data when zip64 is forced. -/
def zip64Extra (file_size compress_size : Nat) : List Nat :=
  enc16 1 ++ enc16 16 ++ enc64 file_size ++ enc64 compress_size

/-- Modelled from the spec: `zipfile.ZipInfo.FileHeader(zip64)` (the zipfile
library is not in `src/`) — the serialized local file header of §6:
signature, version, flags, method, timestamp, CRC-32, compressed and
uncompressed size fields, name- and extra-length fields, the filename, and
the zip64 extension exactly when `zip64` is set. -/
def FileHeader (zi : ZipInfo) (zip64 : Bool) : List Nat :=
  let name := strBytes zi.filename
  let extra := if zip64 then zip64Extra zi.file_size zi.compress_size else []
  [80, 75, 3, 4] ++ enc16 (if zip64 then 45 else 20) ++ enc16 0 ++
    enc16 zi.compress_type ++ enc32 zi.date_time ++ enc32 zi.CRC ++
    enc32 zi.compress_size ++ enc32 zi.file_size ++
    enc16 name.length ++ enc16 extra.length ++ name ++ extra

/-- The persisted archive file: its directory listing, the recorded
central-directory offset, and the raw bytes on disk.  A missing archive
file is represented as `none` at use sites. -/
structure Archive where
  filelist : List ZipInfo
  start_dir : Nat
  bytes : Nat → Nat

/-- An open `zipfile.ZipFile` handle: the in-memory listing, the directory
offset, and the underlying write stream (`fp`), which is `None` once the
handle is closed. -/
structure PyZipFile where
  filelist : List ZipInfo
  start_dir : Nat
  fp : Option WStream

/-- Opening the archive in append mode (`ZipFile(path, "a")`): a missing
file yields an empty archive; otherwise the stored listing and directory
offset are loaded and the stream is positioned at `start_dir`, exactly as
`zipfile` leaves the file pointer for mode `"a"`. -/
def zipOpenAppend (arch : Option Archive) : PyZipFile :=
  match arch with
  | none => ⟨[], 0, some ⟨fun _ => 0, 0⟩⟩
  | some a => ⟨a.filelist, a.start_dir, some ⟨a.bytes, a.start_dir⟩⟩

/-- A chunked writer: `output_zip`, `filename_in_zip`, `compression` and
the entry descriptor, as in `ChunkedStoredZipWriter.__init__`. -/
structure ChunkedWriter where
  output_zip : String
  filename_in_zip : String
  compression : Nat
  zipinfo : ZipInfo

/-- The fresh descriptor `_extract_zipinfo` builds when the entry does not
exist: current time, CRC seeded with `crc32(b"")`, zeroed counters and
`header_offset = 0`. -/
def freshZipInfo (filename_in_zip : String) (compression now : Nat) : ZipInfo :=
  ⟨filename_in_zip, compression, now, crc32 [] 0, 0, 0, 0⟩

/-- `ChunkedStoredZipWriter._extract_zipinfo`: reopen the archive for read
and return the existing entry's descriptor, or a fresh one when the file
or the entry is missing (`FileNotFoundError` / `KeyError`). -/
def _extract_zipinfo (arch : Option Archive) (filename_in_zip : String)
    (compression now : Nat) : ZipInfo :=
  match arch with
  | none => freshZipInfo filename_in_zip compression now
  | some a =>
      match a.filelist.find? (fun z => z.filename == filename_in_zip) with
      | some zi => zi
      | none => freshZipInfo filename_in_zip compression now

/-- ChunkedWriter construction (`__init__`): record the paths and method and call
`_extract_zipinfo` against the current archive state. -/
def mkChunkedWriter (output_zip filename_in_zip : String) (compression : Nat)
    (arch : Option Archive) (now : Nat) : ChunkedWriter :=
  ⟨output_zip, filename_in_zip, compression,
    _extract_zipinfo arch filename_in_zip compression now⟩

/-- `ChunkedStoredZipWriter._exclude_file_info`: drop every listing entry
whose name equals the writer's target name. -/
def _exclude_file_info (filename_in_zip : String) (zip_infos : List ZipInfo) :
    List ZipInfo :=
  zip_infos.filter (fun z => z.filename != filename_in_zip)

/-- `ChunkedStoredZipWriter.update_zip_info_time`: refresh the descriptor
timestamp to the current time. -/
def update_zip_info_time (zi : ZipInfo) (now : Nat) : ZipInfo :=
  { zi with date_time := now }

/-- `ChunkedStoredZipWriter.update_zipinfo_data`: refresh the timestamp,
always advance `compress_size` by the appended byte count, and when an
uncompressed chunk is present advance `file_size` and fold it into the
running CRC. -/
def update_zipinfo_data (zi : ZipInfo) (now : Nat) (chunk : Option (List Nat))
    (compressed_data : List Nat) : ZipInfo :=
  let zi1 := update_zip_info_time zi now
  let zi2 := { zi1 with compress_size := zi1.compress_size + compressed_data.length }
  match chunk with
  | none => zi2
  | some c => { zi2 with file_size := zi2.file_size + c.length,
                         CRC := crc32 c zi2.CRC }

/-- `ChunkedStoredZipWriter.force_zip64`: `file_size * 1.05 > ZIP64_LIMIT`.
The Python float literal `1.05` is modelled as the exact rational 105/100;
for every natural `file_size` the float and the exact comparison agree,
since `file_size * 1.05` is at least 1/20 away from the integer limit
while the rounding error is far smaller. -/
def force_zip64 (zi : ZipInfo) : Bool :=
  decide (105 * zi.file_size > 100 * ZIP64_LIMIT)

/-- The error message raised on writes against a closed archive stream. -/
def archiveClosedMsg : String :=
  "Attempt to write to ZIP archive that was already closed"

/-- `ChunkedStoredZipWriter.write_zipinfo`: fail if the stream is gone,
else seek to `header_offset` and write the local header with the zip64
flag from `force_zip64`. -/
def write_zipinfo (zi : ZipInfo) (write_stream : Option WStream) :
    Except String WStream :=
  match write_stream with
  | none => .error archiveClosedMsg
  | some s => .ok ((s.seek zi.header_offset).write (FileHeader zi (force_zip64 zi)))

/-- `ChunkedStoredZipWriter.write_appended_data`: fail if the stream is
gone, else seek `compress_size` bytes past the current position (the end
of the just-written header) and write the data there. -/
def write_appended_data (zi : ZipInfo) (write_stream : Option WStream)
    (data : List Nat) : Except String WStream :=
  match write_stream with
  | none => .error archiveClosedMsg
  | some s => .ok ((s.seek (s.pos + zi.compress_size)).write data)

/-- `ChunkedStoredZipWriter.update_start_dir`: fail if the stream is gone,
else record the current stream position as the central-directory offset. -/
def update_start_dir (write_stream : Option WStream) : Except String Nat :=
  match write_stream with
  | none => .error archiveClosedMsg
  | some s => .ok s.pos

/-- `ChunkedStoredZipWriter._write`: open the archive in append mode,
refresh the timestamp, swap the descriptor into the listing, write the
local header, append the data after the previously appended bytes, update
the counters, record the directory offset, and rewrite the header with the
post-update values.  The returned listing holds the post-update descriptor
because Python's `swap_zipinfo` inserts the very object that
`update_zipinfo_data` later mutates in place. -/
def _write (w : ChunkedWriter) (arch : Option Archive) (now : Nat)
    (chunk : Option (List Nat)) (compressed_data : List Nat) :
    Except String (ZipInfo × Archive) := do
  let zf := zipOpenAppend arch
  let zi1 := update_zip_info_time w.zipinfo now
  let fl := _exclude_file_info w.filename_in_zip zf.filelist
  let s1 ← write_zipinfo zi1 zf.fp
  let s2 ← write_appended_data zi1 (some s1) compressed_data
  let zi2 := update_zipinfo_data zi1 now chunk compressed_data
  let sd ← update_start_dir (some s2)
  let s3 ← write_zipinfo zi2 (some s2)
  .ok (zi2, ⟨fl ++ [zi2], sd, s3.data⟩)

/-- The write stream as `ZipFile(path, "a")` hands it to `_write`: empty
and at position 0 for a new file, else the stored bytes positioned at
`start_dir`. -/
def fpOf (arch : Option Archive) : WStream :=
  match arch with
  | none => ⟨fun _ => 0, 0⟩
  | some a => ⟨a.bytes, a.start_dir⟩

/-- The post-update descriptor a successful `_write` leaves behind. -/
def wZi (w : ChunkedWriter) (now : Nat) (chunk : Option (List Nat))
    (data : List Nat) : ZipInfo :=
  update_zipinfo_data (update_zip_info_time w.zipinfo now) now chunk data

/-- The stream after `_write`'s first header write (step 4). -/
def wS1 (w : ChunkedWriter) (arch : Option Archive) (now : Nat) : WStream :=
  let zi1 := update_zip_info_time w.zipinfo now
  ((fpOf arch).seek zi1.header_offset).write (FileHeader zi1 (force_zip64 zi1))

/-- The stream after `_write` appends the compressed data (step 5). -/
def wS2 (w : ChunkedWriter) (arch : Option Archive) (now : Nat)
    (data : List Nat) : WStream :=
  let s1 := wS1 w arch now
  (s1.seek (s1.pos + (update_zip_info_time w.zipinfo now).compress_size)).write data

/-- The stream after `_write`'s second header write (step 8). -/
def wS3 (w : ChunkedWriter) (arch : Option Archive) (now : Nat)
    (chunk : Option (List Nat)) (data : List Nat) : WStream :=
  let zi2 := wZi w now chunk data
  ((wS2 w arch now data).seek zi2.header_offset).write
    (FileHeader zi2 (force_zip64 zi2))

/-- The archive state a successful `_write` persists. -/
def wArch (w : ChunkedWriter) (arch : Option Archive) (now : Nat)
    (chunk : Option (List Nat)) (data : List Nat) : Archive :=
  ⟨_exclude_file_info w.filename_in_zip (zipOpenAppend arch).filelist ++ [wZi w now chunk data],
   (wS2 w arch now data).pos,
   (wS3 w arch now chunk data).data⟩

/-- A call to `_write` always succeeds (the freshly opened handle's stream
is live) and produces exactly the post-update descriptor and archive. -/
theorem _write_eq (w : ChunkedWriter) (arch : Option Archive) (now : Nat)
    (chunk : Option (List Nat)) (data : List Nat) :
    _write w arch now chunk data = .ok (wZi w now chunk data, wArch w arch now chunk data) := by
  cases arch <;> rfl

/-- The post-update descriptor's `compress_size` advances by the appended
byte count. -/
theorem wZi_compress_size (w : ChunkedWriter) (now : Nat)
    (chunk : Option (List Nat)) (data : List Nat) :
    (wZi w now chunk data).compress_size = w.zipinfo.compress_size + data.length := by
  cases chunk <;> rfl

/-- The post-update descriptor keeps the entry name. -/
theorem wZi_filename (w : ChunkedWriter) (now : Nat)
    (chunk : Option (List Nat)) (data : List Nat) :
    (wZi w now chunk data).filename = w.zipinfo.filename := by
  cases chunk <;> rfl

/-- The post-update descriptor keeps the compression method. -/
theorem wZi_compress_type (w : ChunkedWriter) (now : Nat)
    (chunk : Option (List Nat)) (data : List Nat) :
    (wZi w now chunk data).compress_type = w.zipinfo.compress_type := by
  cases chunk <;> rfl

/-- The post-update descriptor keeps the header offset. -/
theorem wZi_header_offset (w : ChunkedWriter) (now : Nat)
    (chunk : Option (List Nat)) (data : List Nat) :
    (wZi w now chunk data).header_offset = w.zipinfo.header_offset := by
  cases chunk <;> rfl

/-- The post-update descriptor carries the refreshed timestamp. -/
theorem wZi_date_time (w : ChunkedWriter) (now : Nat)
    (chunk : Option (List Nat)) (data : List Nat) :
    (wZi w now chunk data).date_time = now := by
  cases chunk <;> rfl

/-- With no chunk (a flush-produced write) the logical counters stand still. -/
theorem wZi_none_file_size (w : ChunkedWriter) (now : Nat) (data : List Nat) :
    (wZi w now none data).file_size = w.zipinfo.file_size := rfl

/-- With no chunk the running CRC stands still. -/
theorem wZi_none_CRC (w : ChunkedWriter) (now : Nat) (data : List Nat) :
    (wZi w now none data).CRC = w.zipinfo.CRC := rfl

/-- With a chunk the logical size advances by the chunk length. -/
theorem wZi_some_file_size (w : ChunkedWriter) (now : Nat) (c data : List Nat) :
    (wZi w now (some c) data).file_size = w.zipinfo.file_size + c.length := rfl

/-- With a chunk the running CRC folds the chunk in. -/
theorem wZi_some_CRC (w : ChunkedWriter) (now : Nat) (c data : List Nat) :
    (wZi w now (some c) data).CRC = crc32 c w.zipinfo.CRC := rfl

/-- `ChunkedStoredZipWriter.write_chunk`: store the chunk as its own
compressed representation, `_write(chunk, chunk)`. -/
def stored_write_chunk (w : ChunkedWriter) (arch : Option Archive) (now : Nat)
    (chunk : List Nat) : Except String (ZipInfo × Archive) :=
  _write w arch now (some chunk) chunk

/-- A streaming compression adapter (spec §4.2): an internal state, a
`compress` step, the synchronizing flush `flush(Z_FULL_FLUSH)` used by the
deflate family, and the no-argument terminal `flush()` used by the
block-oriented codecs.  The concrete zlib/bz2/lzma compressor objects are
library state outside `src/`, so the algorithms stay abstract here. -/
structure Adapter (σ : Type) where
  init : σ
  compress : σ → List Nat → σ × List Nat
  flushSync : σ → σ × List Nat
  flushTerm : σ → σ × List Nat

/-- `ChunkedCompressedZipWriter.get_compressor`, viewed at the single
registry key a protocol run touches: return the live adapter state when
the key is present, else construct the method's streaming compressor
(Modelled from the spec §4.3: the throwaway-archive construction yields a
freshly configured compressor, `Adapter.init`) and register it.  The
string keying of the process-wide dict itself is modelled separately for
the registry claims. -/
def get_compressor {σ : Type} (A : Adapter σ) (reg : Option σ) : σ × Option σ :=
  match reg with
  | some s => (s, some s)
  | none => (A.init, some A.init)

/-- `ChunkedCompressedZipWriter.write_chunk`: compress the chunk through
the shared adapter and `_write(chunk, compressed)`.  The registry cell
ends up holding the adapter state the in-place `compress` call left. -/
def compressed_write_chunk {σ : Type} (A : Adapter σ) (w : ChunkedWriter)
    (arch : Option Archive) (reg : Option σ) (now : Nat) (chunk : List Nat) :
    Except String (ZipInfo × Archive × Option σ) := do
  let p := get_compressor A reg
  let q := A.compress p.1 chunk
  let r ← _write w arch now (some chunk) q.2
  .ok (r.1, r.2, some q.1)

/-- `ChunkedCompressedZipWriter.flush`: a no-op unless the method is BZIP2
or LZMA, else take the adapter's terminal flush and `_write(None, result)`
when the result is non-empty. -/
def compressed_flush {σ : Type} (A : Adapter σ) (w : ChunkedWriter)
    (arch : Option Archive) (reg : Option σ) (now : Nat) :
    Except String (ZipInfo × Option Archive × Option σ) :=
  if w.compression = ZIP_BZIP2 ∨ w.compression = ZIP_LZMA then
    if (A.flushTerm (get_compressor A reg).1).2.length = 0 then
      .ok (w.zipinfo, arch, some (A.flushTerm (get_compressor A reg).1).1)
    else
      match _write w arch now none (A.flushTerm (get_compressor A reg).1).2 with
      | .ok r => .ok (r.1, some r.2, some (A.flushTerm (get_compressor A reg).1).1)
      | .error e => .error e
  else .ok (w.zipinfo, arch, reg)

/-- `ChunkedCompressedZipWriter.close`: a no-op unless the method is
DEFLATE, else take the adapter's full-sync flush (`flush(Z_FULL_FLUSH)`)
and `_write(None, result)` when the result is non-empty. -/
def compressed_close {σ : Type} (A : Adapter σ) (w : ChunkedWriter)
    (arch : Option Archive) (reg : Option σ) (now : Nat) :
    Except String (ZipInfo × Option Archive × Option σ) :=
  if w.compression = ZIP_DEFLATED then
    if (A.flushSync (get_compressor A reg).1).2.length = 0 then
      .ok (w.zipinfo, arch, some (A.flushSync (get_compressor A reg).1).1)
    else
      match _write w arch now none (A.flushSync (get_compressor A reg).1).2 with
      | .ok r => .ok (r.1, some r.2, some (A.flushSync (get_compressor A reg).1).1)
      | .error e => .error e
  else .ok (w.zipinfo, arch, reg)

/-- One iteration of the STORED loop of `zip_file_in_chunks`: a fresh
`ChunkedStoredZipWriter` in a `with` block writing one chunk (the stored
writer's `close()` on exit is `pass`). -/
def stored_chunk_step (output_zip filename_in_zip : String) (now : Nat)
    (arch : Option Archive) (chunk : List Nat) : Option Archive :=
  let zw := mkChunkedWriter output_zip filename_in_zip ZIP_STORED arch now
  match stored_write_chunk zw arch now chunk with
  | .ok r => some r.2
  | .error _ => arch

/-- One iteration of the compressed loop of `zip_file_in_chunks`: a fresh
`ChunkedCompressedZipWriter` in a `with` block writing one chunk, whose
exit invokes `close()` on the same (descriptor-mutated) writer. -/
def compressed_chunk_step {σ : Type} (A : Adapter σ)
    (output_zip filename_in_zip : String) (compression now : Nat)
    (st : Option Archive × Option σ) (chunk : List Nat) :
    Option Archive × Option σ :=
  let zw := mkChunkedWriter output_zip filename_in_zip compression st.1 now
  match compressed_write_chunk A zw st.1 st.2 now chunk with
  | .ok r =>
      match compressed_close A { zw with zipinfo := r.1 } (some r.2.1) r.2.2 now with
      | .ok r2 => (r2.2.1, r2.2.2)
      | .error _ => (some r.2.1, r.2.2)
  | .error _ => st

/-- `zip_file_in_chunks` from `__init__.py`: for STORED, one fresh
`ChunkedStoredZipWriter` per chunk calling `write_chunk` (the context
manager's `close()` is `pass`), then a fresh writer calling `flush()`
(also `pass`); otherwise one fresh `ChunkedCompressedZipWriter` per chunk
whose `with`-block exit runs `close()`, then a fresh writer running
`flush()` and, on exit, `close()`.  The chunk list stands for
`read_file_in_chunks` of the source file; the entry name parameter stands
for `os.path.basename(input_file)`. -/
def zip_file_in_chunks {σ : Type} (A : Adapter σ) (output_zip filename_in_zip : String)
    (compression : Nat) (chunks : List (List Nat)) (now : Nat) :
    Option Archive × Option σ :=
  if compression = ZIP_STORED then
    (chunks.foldl (stored_chunk_step output_zip filename_in_zip now) none, none)
  else
    let st := chunks.foldl
      (compressed_chunk_step A output_zip filename_in_zip compression now) (none, none)
    let zw := mkChunkedWriter output_zip filename_in_zip compression st.1 now
    match compressed_flush A zw st.1 st.2 now with
    | .ok r =>
        match compressed_close A { zw with zipinfo := r.1 } r.2.1 r.2.2 now with
        | .ok r2 => (r2.2.1, r2.2.2)
        | .error _ => (r.2.1, r.2.2)
    | .error _ => st

/-- A little-endian 16-bit field read from a byte function. -/
def u16At (f : Nat → Nat) (off : Nat) : Nat := f off + 256 * f (off + 1)

/-- Modelled from the spec: the reader side (§6, `zipfile.ZipExtFile`, not
in `src/`).  It locates the entry named `filename` through the central
directory, parses the local header at `header_offset` — in particular its
name-length and extra-length fields — to find where the data region
starts, and reads `compress_size` bytes from there. -/
def readEntryData (a : Archive) (filename : String) : Option (List Nat) :=
  match a.filelist.find? (fun z => z.filename == filename) with
  | none => none
  | some zi =>
      let nameLen := u16At a.bytes (zi.header_offset + 26)
      let extraLen := u16At a.bytes (zi.header_offset + 28)
      some (readSeg a.bytes (zi.header_offset + 30 + nameLen + extraLen) zi.compress_size)

/-- Length of the serialized local header: 30 fixed bytes, the filename,
and 20 more exactly when the zip64 extension is emitted. -/
theorem FileHeader_length (zi : ZipInfo) (b : Bool) :
    (FileHeader zi b).length =
      30 + (strBytes zi.filename).length + (if b then 20 else 0) := by
  cases b <;>
    simp [FileHeader, zip64Extra, enc16, enc32, enc64] <;>
    omega

/-- Byte 26 of the header is the low byte of the name-length field. -/
theorem FileHeader_getD_26 (zi : ZipInfo) (b : Bool) :
    (FileHeader zi b).getD 26 0 = (strBytes zi.filename).length % 256 := by
  cases b <;> rfl

/-- Byte 27 of the header is the high byte of the name-length field. -/
theorem FileHeader_getD_27 (zi : ZipInfo) (b : Bool) :
    (FileHeader zi b).getD 27 0 = (strBytes zi.filename).length / 256 % 256 := by
  cases b <;> rfl

/-- Byte 28 of the header is the low byte of the extra-length field:
20 with the zip64 extension, 0 without. -/
theorem FileHeader_getD_28 (zi : ZipInfo) (b : Bool) :
    (FileHeader zi b).getD 28 0 = if b then 20 else 0 := by
  cases b <;> rfl

/-- Byte 29 of the header (extra-length high byte) is always 0. -/
theorem FileHeader_getD_29 (zi : ZipInfo) (b : Bool) :
    (FileHeader zi b).getD 29 0 = 0 := by
  cases b <;> with_unfolding_all rfl

/-- The name-length field read back from a freshly written header. -/
theorem u16At_header_26 (s : WStream) (p : Nat) (zi : ZipInfo) (b : Bool) :
    u16At (((s.seek p).write (FileHeader zi b)).data) (p + 26) =
      (strBytes zi.filename).length % 65536 := by
  have hlen := FileHeader_length zi b
  have h26 : (26 : Nat) < (FileHeader zi b).length := by omega
  have h27 : (27 : Nat) < (FileHeader zi b).length := by omega
  unfold u16At
  have e : p + 26 + 1 = p + 27 := by omega
  rw [e, write_data_at s p _ 26 h26, write_data_at s p _ 27 h27,
    FileHeader_getD_26, FileHeader_getD_27]
  omega

/-- The extra-length field read back from a freshly written header:
20 exactly when the zip64 extension was emitted. -/
theorem u16At_header_28 (s : WStream) (p : Nat) (zi : ZipInfo) (b : Bool) :
    u16At (((s.seek p).write (FileHeader zi b)).data) (p + 28) =
      if b then 20 else 0 := by
  have hlen := FileHeader_length zi b
  have h28 : (28 : Nat) < (FileHeader zi b).length := by omega
  have h29 : (29 : Nat) < (FileHeader zi b).length := by omega
  unfold u16At
  have e : p + 28 + 1 = p + 29 := by omega
  rw [e, write_data_at s p _ 28 h28, write_data_at s p _ 29 h29,
    FileHeader_getD_28, FileHeader_getD_29]
  cases b <;> simp

/-- C8: each of the three stream-touching steps of `_write` — writing the
local header, appending compressed data, and updating the directory start
offset — fails with the invalid-state message "Attempt to write to ZIP
archive that was already closed" exactly when the underlying write stream
is closed (`None`); with an open stream each step succeeds. -/
theorem C8_closed_stream_error :
    (∀ zi, write_zipinfo zi none = .error archiveClosedMsg) ∧
    (∀ zi s, write_zipinfo zi (some s) =
      .ok ((s.seek zi.header_offset).write (FileHeader zi (force_zip64 zi)))) ∧
    (∀ zi data, write_appended_data zi none data = .error archiveClosedMsg) ∧
    (∀ zi s data, write_appended_data zi (some s) data =
      .ok ((s.seek (s.pos + zi.compress_size)).write data)) ∧
    (update_start_dir none = .error archiveClosedMsg) ∧
    (∀ s, update_start_dir (some s) = .ok s.pos) :=
  ⟨fun _ => rfl, fun _ _ => rfl, fun _ _ => rfl, fun _ _ _ => rfl, rfl, fun _ => rfl⟩

/-- C9: every local-header write emits the zip64 fields iff the
descriptor's uncompressed size satisfies `file_size * 1.05 > 2^31 - 1`
(the float `1.05` taken as the exact rational 105/100, with which the
float comparison agrees for every natural size): the written header's
extra-length field reads back 20 — the zip64 extension — exactly under
that condition, and 0 just below it. -/
theorem C9_zip64_threshold (zi : ZipInfo) (s : WStream) :
    ∃ s', write_zipinfo zi (some s) = .ok s' ∧
      u16At s'.data (zi.header_offset + 28) =
        (if 105 * zi.file_size > 100 * ZIP64_LIMIT then 20 else 0) ∧
      (u16At s'.data (zi.header_offset + 28) = 20 ↔
        105 * zi.file_size > 100 * ZIP64_LIMIT) := by
  have hb : force_zip64 zi = true ↔ 105 * zi.file_size > 100 * ZIP64_LIMIT := by
    simp [force_zip64]
  have hfield := u16At_header_28 s zi.header_offset zi (force_zip64 zi)
  refine ⟨_, rfl, ?_, ?_⟩
  · rw [hfield]
    by_cases h : 105 * zi.file_size > 100 * ZIP64_LIMIT
    · rw [if_pos h, if_pos (hb.mpr h)]
    · rw [if_neg h, if_neg]
      intro hc
      exact h (hb.mp hc)
  · rw [hfield]
    constructor
    · intro h20
      by_contra h
      rw [if_neg] at h20
      · exact absurd h20 (by norm_num)
      · intro hc
        exact h (hb.mp hc)
    · intro h
      rw [if_pos (hb.mpr h)]

/-- C2: immediately after any successful `_write` by a writer bound to
entry name `filename_in_zip`, the archive listing holds exactly one entry
of that name — pre-existing same-named entries were filtered out before
the current descriptor was appended. -/
theorem C2_single_entry (w : ChunkedWriter) (arch : Option Archive) (now : Nat)
    (chunk : Option (List Nat)) (data : List Nat)
    (hw : w.zipinfo.filename = w.filename_in_zip) :
    ∃ zi' a', _write w arch now chunk data = .ok (zi', a') ∧
      a'.filelist.countP (fun z => z.filename == w.filename_in_zip) = 1 := by
  refine ⟨_, _, _write_eq w arch now chunk data, ?_⟩
  show ((_exclude_file_info w.filename_in_zip (zipOpenAppend arch).filelist) ++
      [wZi w now chunk data]).countP (fun z => z.filename == w.filename_in_zip) = 1
  rw [List.countP_append]
  have h0 : (_exclude_file_info w.filename_in_zip (zipOpenAppend arch).filelist).countP
      (fun z => z.filename == w.filename_in_zip) = 0 := by
    rw [List.countP_eq_zero]
    intro z hz
    have hmem := List.of_mem_filter hz
    simp only [bne_iff_ne, ne_eq, beq_iff_eq] at hmem ⊢
    exact hmem
  rw [h0]
  have h1 : ((fun z => z.filename == w.filename_in_zip) (wZi w now chunk data)) = true := by
    simp [wZi_filename, hw]
  simp [List.countP_cons, h1]

/-- A concrete instance of `C2_single_entry`: a fresh writer for entry
"f" writing one chunk leaves exactly one entry named "f". -/
theorem C2_single_entry_witness :
    ∃ zi' a',
      _write (mkChunkedWriter "out.zip" "f" ZIP_STORED none 0) none 0
        (some [1, 2]) [1, 2] = .ok (zi', a') ∧
      a'.filelist.countP (fun z => z.filename == "f") = 1 :=
  C2_single_entry (mkChunkedWriter "out.zip" "f" ZIP_STORED none 0) none 0
    (some [1, 2]) [1, 2] rfl

/-- C3: after every successful `_write` the local header at the entry's
`header_offset` reads back as the serialization of the post-update
descriptor — `compress_size` advanced by the bytes physically appended,
`file_size` and the running CRC advanced by the chunk's contribution —
because `_write` rewrites the header a second time after updating the
counters. -/
theorem C3_header_self_consistency (w : ChunkedWriter) (arch : Option Archive)
    (now : Nat) (chunk : Option (List Nat)) (data : List Nat) :
    ∃ zi' a', _write w arch now chunk data = .ok (zi', a') ∧
      readSeg a'.bytes zi'.header_offset (FileHeader zi' (force_zip64 zi')).length
        = FileHeader zi' (force_zip64 zi') ∧
      zi'.compress_size = w.zipinfo.compress_size + data.length ∧
      zi'.file_size = w.zipinfo.file_size +
        (match chunk with | some c => c.length | none => 0) ∧
      zi'.CRC = (match chunk with
        | some c => crc32 c w.zipinfo.CRC
        | none => w.zipinfo.CRC) := by
  refine ⟨_, _, _write_eq w arch now chunk data, ?_,
    wZi_compress_size w now chunk data, ?_, ?_⟩
  · show readSeg (wS3 w arch now chunk data).data
      (wZi w now chunk data).header_offset _ = _
    unfold wS3
    exact readSeg_write_self _ _ _
  · cases chunk <;> rfl
  · cases chunk <;> rfl

/-- C4: after every successful `_write` the recorded central-directory
offset is the stream position one byte past the appended data: the header
offset, plus the just-written header's length, plus the previously
appended byte count, plus the new data's length. -/
theorem C4_directory_offset (w : ChunkedWriter) (arch : Option Archive)
    (now : Nat) (chunk : Option (List Nat)) (data : List Nat) :
    ∃ zi' a', _write w arch now chunk data = .ok (zi', a') ∧
      a'.start_dir = w.zipinfo.header_offset +
        (FileHeader (update_zip_info_time w.zipinfo now)
          (force_zip64 (update_zip_info_time w.zipinfo now))).length +
        w.zipinfo.compress_size + data.length := by
  refine ⟨_, _, _write_eq w arch now chunk data, ?_⟩
  show (wS2 w arch now data).pos = _
  unfold wS2 wS1
  simp only [WStream.write, WStream.seek, update_zip_info_time]

/-- Xoring the same mask twice cancels. -/
theorem xor_xor_cancel (x m : Nat) : Nat.xor (Nat.xor x m) m = x := by
  show x ^^^ m ^^^ m = x
  rw [Nat.xor_assoc, Nat.xor_self, Nat.xor_zero]

/-- The CRC of no data is the seed unchanged (`crc32(b"", v) == v`). -/
theorem crc32_nil (v : Nat) : crc32 [] v = v := by
  unfold crc32
  rw [List.foldl_nil, xor_xor_cancel]

/-- CRC-32 streams: continuing from a prefix CRC equals the CRC of the
concatenation. -/
theorem crc32_append (a b : List Nat) (v : Nat) :
    crc32 (a ++ b) v = crc32 b (crc32 a v) := by
  unfold crc32
  rw [xor_xor_cancel, List.foldl_append]

/-- The per-chunk CRC left fold the writer performs, seeded with the CRC
of empty input. -/
def crcFold (chunks : List (List Nat)) : Nat :=
  chunks.foldl (fun acc c => crc32 c acc) (crc32 [] 0)

/-- Folding chunk CRCs from any seed equals the CRC of the concatenation. -/
theorem foldl_crc32_flatten (chunks : List (List Nat)) (v : Nat) :
    chunks.foldl (fun acc c => crc32 c acc) v = crc32 chunks.flatten v := by
  induction chunks generalizing v with
  | nil => rw [List.foldl_nil, List.flatten_nil, crc32_nil]
  | cons c cs ih => rw [List.foldl_cons, List.flatten_cons, crc32_append, ih]

/-- The writer's CRC fold equals the CRC of all chunks concatenated. -/
theorem crcFold_eq_flatten (chunks : List (List Nat)) :
    crcFold chunks = crc32 chunks.flatten 0 := by
  unfold crcFold
  rw [foldl_crc32_flatten, crc32_nil]

/-- Appending one chunk extends the CRC fold by one `crc32` step. -/
theorem crcFold_append (l : List (List Nat)) (c : List Nat) :
    crcFold (l ++ [c]) = crc32 c (crcFold l) := by
  unfold crcFold
  rw [List.foldl_append, List.foldl_cons, List.foldl_nil]

/-- The total number of bytes in a chunk list. -/
def totalLen (chunks : List (List Nat)) : Nat := (chunks.map List.length).sum

/-- Appending one chunk grows the total length by its length. -/
theorem totalLen_append (l : List (List Nat)) (c : List Nat) :
    totalLen (l ++ [c]) = totalLen l + c.length := by
  simp [totalLen]

/-- Invariant preservation along a left fold, tracking the processed
prefix. -/
theorem foldl_inv {α β : Type} (P : List α → β → Prop) (step : β → α → β)
    (hstep : ∀ done st c, P done st → P (done ++ [c]) (step st c)) :
    ∀ (l done : List α) (st : β), P done st → P (done ++ l) (l.foldl step st) := by
  intro l
  induction l with
  | nil =>
      intro done st h
      simpa using h
  | cons c cs ih =>
      intro done st h
      have h2 := ih (done ++ [c]) (step st c) (hstep done st c h)
      rw [List.foldl_cons]
      simpa [List.append_assoc] using h2

/-- A writer records its target entry name. -/
theorem mkChunkedWriter_filename (o f : String) (m : Nat) (arch : Option Archive)
    (now : Nat) :
    (mkChunkedWriter o f m arch now).filename_in_zip = f := rfl

/-- A writer's `zipinfo` is what `_extract_zipinfo` returned. -/
theorem mkChunkedWriter_zipinfo (o f : String) (m : Nat) (arch : Option Archive)
    (now : Nat) :
    (mkChunkedWriter o f m arch now).zipinfo = _extract_zipinfo arch f m now := rfl

/-- Extraction against a present archive inspects the listing. -/
theorem _extract_zipinfo_some (a : Archive) (f : String) (m now : Nat) :
    _extract_zipinfo (some a) f m now =
      (match a.filelist.find? (fun z => z.filename == f) with
       | some zi => zi
       | none => freshZipInfo f m now) := rfl

/-- A STORED chunk step always persists the `_write` result. -/
theorem stored_chunk_step_eq (o f : String) (now : Nat) (arch : Option Archive)
    (c : List Nat) :
    stored_chunk_step o f now arch c =
      some (wArch (mkChunkedWriter o f ZIP_STORED arch now) arch now (some c) c) := by
  unfold stored_chunk_step stored_write_chunk
  simp only [_write_eq]

/-- The archive `_write` persists lists exactly the filtered listing plus
the post-update descriptor. -/
theorem wArch_filelist (w : ChunkedWriter) (arch : Option Archive) (now : Nat)
    (chunk : Option (List Nat)) (data : List Nat) :
    (wArch w arch now chunk data).filelist =
      _exclude_file_info w.filename_in_zip (zipOpenAppend arch).filelist ++
        [wZi w now chunk data] := rfl

/-- The archive `_write` persists carries the bytes after the second
header write. -/
theorem wArch_bytes (w : ChunkedWriter) (arch : Option Archive) (now : Nat)
    (chunk : Option (List Nat)) (data : List Nat) :
    (wArch w arch now chunk data).bytes = (wS3 w arch now chunk data).data := rfl

/-- The descriptor state of the STORED protocol after a prefix of chunks:
both counters at the bytes fed so far, the CRC fold over them, and the
header at offset 0. -/
def storedInvZi (filename_in_zip : String) (now : Nat)
    (done : List (List Nat)) : ZipInfo :=
  ⟨filename_in_zip, ZIP_STORED, now, crcFold done, totalLen done, totalLen done, 0⟩

/-- The invariant of the STORED chunk loop: no archive before the first
chunk, afterwards a single-entry listing carrying the folded counters. -/
def StoredInv (filename_in_zip : String) (now : Nat)
    (done : List (List Nat)) (arch : Option Archive) : Prop :=
  (done = [] ∧ arch = none) ∨
  (∃ a, arch = some a ∧ a.filelist = [storedInvZi filename_in_zip now done])

/-- Updating a descriptor with a stored chunk advances both counters by
the chunk length and folds the chunk into the CRC. -/
theorem wZi_stored (w : ChunkedWriter) (now : Nat) (c : List Nat) :
    wZi w now (some c) c =
      ⟨w.zipinfo.filename, w.zipinfo.compress_type, now,
        crc32 c w.zipinfo.CRC, w.zipinfo.file_size + c.length,
        w.zipinfo.compress_size + c.length, w.zipinfo.header_offset⟩ := rfl

/-- Each STORED chunk step preserves the loop invariant. -/
theorem stored_chunk_step_inv (output_zip filename_in_zip : String) (now : Nat)
    (done : List (List Nat)) (arch : Option Archive) (c : List Nat)
    (h : StoredInv filename_in_zip now done arch) :
    StoredInv filename_in_zip now (done ++ [c])
      (stored_chunk_step output_zip filename_in_zip now arch c) := by
  rcases h with ⟨hd, ha⟩ | ⟨a, ha, hl⟩
  · subst hd
    subst ha
    refine Or.inr ⟨_, stored_chunk_step_eq output_zip filename_in_zip now none c, ?_⟩
    rw [wArch_filelist, wZi_stored]
    have hzi : (mkChunkedWriter output_zip filename_in_zip ZIP_STORED none now).zipinfo =
        freshZipInfo filename_in_zip ZIP_STORED now := rfl
    rw [hzi]
    show [_] = [_]
    unfold freshZipInfo storedInvZi crcFold totalLen
    rw [crc32_nil]
    simp
  · subst ha
    have hfind : a.filelist.find? (fun z => z.filename == filename_in_zip) =
        some (storedInvZi filename_in_zip now done) := by
      rw [hl]
      simp [List.find?, storedInvZi]
    have hzw : (mkChunkedWriter output_zip filename_in_zip ZIP_STORED (some a) now).zipinfo =
        storedInvZi filename_in_zip now done := by
      rw [mkChunkedWriter_zipinfo, _extract_zipinfo_some, hfind]
    refine Or.inr ⟨_, stored_chunk_step_eq output_zip filename_in_zip now (some a) c, ?_⟩
    rw [wArch_filelist, wZi_stored, hzw, mkChunkedWriter_filename]
    have hex : _exclude_file_info filename_in_zip (zipOpenAppend (some a)).filelist = [] := by
      show (a.filelist).filter _ = []
      rw [hl]
      simp [storedInvZi]
    rw [hex]
    show [_] = [_]
    unfold storedInvZi
    rw [crcFold_append, totalLen_append]

/-- The STORED loop from an absent archive establishes the invariant at
every prefix; in particular at the full chunk list. -/
theorem stored_run_inv (output_zip filename_in_zip : String) (now : Nat)
    (chunks : List (List Nat)) :
    StoredInv filename_in_zip now chunks
      (chunks.foldl (stored_chunk_step output_zip filename_in_zip now) none) := by
  have h := foldl_inv (StoredInv filename_in_zip now)
    (stored_chunk_step output_zip filename_in_zip now)
    (stored_chunk_step_inv output_zip filename_in_zip now)
    chunks [] none (Or.inl ⟨rfl, rfl⟩)
  simpa using h

/-- With method STORED, `zip_file_in_chunks` runs the stored loop and
never touches an adapter. -/
theorem zip_file_in_chunks_stored {σ : Type} (A : Adapter σ)
    (output_zip filename_in_zip : String) (chunks : List (List Nat)) (now : Nat) :
    zip_file_in_chunks A output_zip filename_in_zip ZIP_STORED chunks now =
      (chunks.foldl (stored_chunk_step output_zip filename_in_zip now) none, none) := by
  unfold zip_file_in_chunks
  rw [if_pos rfl]

/-- The identity adapter (`EmptyCompress`): `compress` passes data through
and both flush shapes return empty output. -/
def idAdapter : Adapter Unit :=
  ⟨(), fun s c => (s, c), fun s => (s, []), fun s => (s, [])⟩

/-- C5: the writer seeds its running CRC with the CRC of empty input and
folds each chunk in with `crc32(chunk, CRC)`; this left fold equals the
CRC-32 of the concatenation of all chunks, so after the STORED protocol
the finalized entry's stored CRC equals the CRC-32 of the original
uncompressed bytes. -/
theorem C5_crc_correctness {σ : Type} (A : Adapter σ)
    (output_zip filename_in_zip : String) (now : Nat)
    (chunks : List (List Nat)) (hne : chunks ≠ []) :
    (∀ m t, (freshZipInfo filename_in_zip m t).CRC = crc32 [] 0) ∧
    (∀ zi t c d, (update_zipinfo_data zi t (some c) d).CRC = crc32 c zi.CRC) ∧
    crcFold chunks = crc32 chunks.flatten 0 ∧
    (∃ a, (zip_file_in_chunks A output_zip filename_in_zip ZIP_STORED chunks now).1 = some a ∧
      ∃ zi, a.filelist = [zi] ∧ zi.CRC = crc32 chunks.flatten 0) := by
  refine ⟨fun m t => by simp [freshZipInfo], fun zi t c d => by
    simp [update_zipinfo_data, update_zip_info_time], crcFold_eq_flatten chunks, ?_⟩
  have hinv := stored_run_inv output_zip filename_in_zip now chunks
  rcases hinv with ⟨hd, _⟩ | ⟨a, ha, hl⟩
  · exact absurd hd hne
  · refine ⟨a, ?_, storedInvZi filename_in_zip now chunks, hl, ?_⟩
    · rw [zip_file_in_chunks_stored]
      exact ha
    · show crcFold chunks = _
      exact crcFold_eq_flatten chunks

/-- A concrete instance of `C5_crc_correctness`: two STORED chunks leave
an entry whose CRC is the CRC-32 of their concatenation. -/
theorem C5_crc_correctness_witness :
    ∃ a, (zip_file_in_chunks idAdapter "out.zip" "f" ZIP_STORED [[1], [2, 3]] 0).1 = some a ∧
      ∃ zi, a.filelist = [zi] ∧ zi.CRC = crc32 ([[1], [2, 3]] : List (List Nat)).flatten 0 :=
  (C5_crc_correctness idAdapter "out.zip" "f" 0 [[1], [2, 3]] (by decide)).2.2.2

/-- C6: `flush()` appends bytes only for BZIP2/LZMA — it takes the
adapter's no-argument terminal flush and calls `_write(None, result)` iff
the result is non-empty, a `_write` that leaves `file_size` and the CRC
unchanged while advancing only `compress_size`; for DEFLATE and STORED it
writes nothing.  Symmetrically `close()` appends bytes only for DEFLATE
via the adapter's `flush(Z_FULL_FLUSH)`, and writes nothing otherwise. -/
theorem C6_flush_close_routing {σ : Type} (A : Adapter σ) (w : ChunkedWriter)
    (arch : Option Archive) (reg : Option σ) (now : Nat) :
    (¬(w.compression = ZIP_BZIP2 ∨ w.compression = ZIP_LZMA) →
      compressed_flush A w arch reg now = .ok (w.zipinfo, arch, reg)) ∧
    ((w.compression = ZIP_BZIP2 ∨ w.compression = ZIP_LZMA) →
      (A.flushTerm (get_compressor A reg).1).2 = [] →
      compressed_flush A w arch reg now =
        .ok (w.zipinfo, arch, some (A.flushTerm (get_compressor A reg).1).1)) ∧
    ((w.compression = ZIP_BZIP2 ∨ w.compression = ZIP_LZMA) →
      (A.flushTerm (get_compressor A reg).1).2 ≠ [] →
      compressed_flush A w arch reg now =
        .ok (wZi w now none (A.flushTerm (get_compressor A reg).1).2,
          some (wArch w arch now none (A.flushTerm (get_compressor A reg).1).2),
          some (A.flushTerm (get_compressor A reg).1).1)) ∧
    (∀ zi t d, (update_zipinfo_data zi t none d).file_size = zi.file_size ∧
      (update_zipinfo_data zi t none d).CRC = zi.CRC ∧
      (update_zipinfo_data zi t none d).compress_size = zi.compress_size + d.length) ∧
    (w.compression ≠ ZIP_DEFLATED →
      compressed_close A w arch reg now = .ok (w.zipinfo, arch, reg)) ∧
    (w.compression = ZIP_DEFLATED →
      (A.flushSync (get_compressor A reg).1).2 = [] →
      compressed_close A w arch reg now =
        .ok (w.zipinfo, arch, some (A.flushSync (get_compressor A reg).1).1)) ∧
    (w.compression = ZIP_DEFLATED →
      (A.flushSync (get_compressor A reg).1).2 ≠ [] →
      compressed_close A w arch reg now =
        .ok (wZi w now none (A.flushSync (get_compressor A reg).1).2,
          some (wArch w arch now none (A.flushSync (get_compressor A reg).1).2),
          some (A.flushSync (get_compressor A reg).1).1)) := by
  refine ⟨?_, ?_, ?_, ?_, ?_, ?_, ?_⟩
  · intro h
    simp only [compressed_flush]
    rw [if_neg h]
  · intro h hq
    simp only [compressed_flush]
    rw [if_pos h, hq]
    simp
  · intro h hq
    have hlen : ¬((A.flushTerm (get_compressor A reg).1).2.length = 0) := by
      simpa [List.length_eq_zero] using hq
    simp only [compressed_flush]
    rw [if_pos h, if_neg hlen, _write_eq]
  · intro zi t d
    refine ⟨?_, ?_, ?_⟩ <;> simp [update_zipinfo_data, update_zip_info_time]
  · intro h
    simp only [compressed_close]
    rw [if_neg h]
  · intro h hq
    simp only [compressed_close]
    rw [if_pos h, hq]
    simp
  · intro h hq
    have hlen : ¬((A.flushSync (get_compressor A reg).1).2.length = 0) := by
      simpa [List.length_eq_zero] using hq
    simp only [compressed_close]
    rw [if_pos h, if_neg hlen, _write_eq]

/-- An adapter whose flushes always emit a trailing byte, to exercise the
appending branches of `flush`/`close`. -/
def bufAdapter : Adapter (List Nat) :=
  ⟨[], fun s c => (s ++ c, []), fun s => ([], s ++ [1]), fun s => ([], s ++ [2])⟩

/-- Concrete instances of `C6_flush_close_routing`: a BZIP2 writer's
`flush()` appends its terminal-flush bytes, and the same writer's
`close()` is a no-op. -/
theorem C6_flush_close_routing_witness :
    compressed_flush bufAdapter (mkChunkedWriter "o.zip" "f" ZIP_BZIP2 none 0) none none 0 =
      .ok (wZi (mkChunkedWriter "o.zip" "f" ZIP_BZIP2 none 0) 0 none
            (bufAdapter.flushTerm (get_compressor bufAdapter none).1).2,
        some (wArch (mkChunkedWriter "o.zip" "f" ZIP_BZIP2 none 0) none 0 none
            (bufAdapter.flushTerm (get_compressor bufAdapter none).1).2),
        some (bufAdapter.flushTerm (get_compressor bufAdapter none).1).1) ∧
    compressed_close bufAdapter (mkChunkedWriter "o.zip" "f" ZIP_BZIP2 none 0) none none 0 =
      .ok ((mkChunkedWriter "o.zip" "f" ZIP_BZIP2 none 0).zipinfo, none, none) := by
  constructor
  · exact (C6_flush_close_routing bufAdapter
      (mkChunkedWriter "o.zip" "f" ZIP_BZIP2 none 0) none none 0).2.2.1
      (Or.inl rfl) (by decide)
  · exact (C6_flush_close_routing bufAdapter
      (mkChunkedWriter "o.zip" "f" ZIP_BZIP2 none 0) none none 0).2.2.2.2.1
      (by decide)

/-- The process-wide `zip_compressor_storage` dict together with an
allocation counter: adapter instances are identified by creation order so
that "the same live instance" is expressible in the model. -/
structure CompressorStorage where
  table : List (String × Nat)
  next : Nat

/-- `ChunkedCompressedZipWriter._compressor_path`: the registry key, the
string `f"{output_zip}/{filename_in_zip}"`. -/
def _compressor_path (output_zip filename_in_zip : String) : String :=
  output_zip ++ "/" ++ filename_in_zip

/-- What `get_compressor` hands back, by instance identity: a freshly
constructed identity adapter (`EmptyCompress()`), or the shared streaming
adapter instance with the given allocation id. -/
inductive CompressorRef where
  | emptyCompress (gen : Nat)
  | inst (id : Nat)
deriving DecidableEq

/-- `ChunkedCompressedZipWriter.get_compressor`, keyed view: for STORED a
fresh `EmptyCompress()` is constructed without reading or writing the
dict; otherwise the key `_compressor_path` is looked up, a hit returns the
registered instance, and a miss registers a newly constructed streaming
adapter (Modelled from the spec §4.3: the throwaway-archive construction,
zipfile/tempfile machinery not in `src/`, is an allocation). -/
def get_compressor_keyed (compression : Nat) (output_zip filename_in_zip : String)
    (st : CompressorStorage) : CompressorRef × CompressorStorage :=
  if compression = ZIP_STORED then
    (.emptyCompress st.next, ⟨st.table, st.next + 1⟩)
  else
    match st.table.lookup (_compressor_path output_zip filename_in_zip) with
    | some id => (.inst id, st)
    | none => (.inst st.next,
        ⟨st.table ++ [(_compressor_path output_zip filename_in_zip, st.next)], st.next + 1⟩)

/-- C7 counterexample: the registry key is the slash-joined string, which
is not injective in the (archive path, entry name) pair — the distinct
pairs ("a/b", "c") and ("a", "b/c") share the key "a/b/c", so the second
writer receives the very instance the first one registered, refuting
"distinct pairs always yield distinct adapter instances". -/
theorem C7_registry_keying_counterexample :
    _compressor_path "a/b" "c" = _compressor_path "a" "b/c" ∧
    ("a/b", "c") ≠ (("a", "b/c") : String × String) ∧
    (get_compressor_keyed ZIP_DEFLATED "a" "b/c"
        (get_compressor_keyed ZIP_DEFLATED "a/b" "c" ⟨[], 0⟩).2).1 =
      (get_compressor_keyed ZIP_DEFLATED "a/b" "c" ⟨[], 0⟩).1 := by
  refine ⟨rfl, by decide, by decide⟩

/-- C7 as amended: for non-STORED methods, two writers starting from an
empty registry obtain the same live adapter instance iff their joined key
strings `f"{output_zip}/{filename_in_zip}"` are equal (equal pairs are a
special case; distinct pairs may collide); for STORED, `get_compressor`
returns a fresh identity adapter, never writes the dict and never reads
it (its result depends only on the allocation counter). -/
theorem C7_registry_keying_amended (o1 f1 o2 f2 : String) (m1 m2 : Nat)
    (h1 : m1 ≠ ZIP_STORED) (h2 : m2 ≠ ZIP_STORED) :
    ((get_compressor_keyed m2 o2 f2
        (get_compressor_keyed m1 o1 f1 ⟨[], 0⟩).2).1 =
      (get_compressor_keyed m1 o1 f1 ⟨[], 0⟩).1 ↔
      _compressor_path o2 f2 = _compressor_path o1 f1) ∧
    (∀ st o f, (get_compressor_keyed ZIP_STORED o f st).2.table = st.table) ∧
    (∀ st o f, (get_compressor_keyed ZIP_STORED o f st).1 = .emptyCompress st.next) := by
  refine ⟨?_, ?_, ?_⟩
  · have e1 : get_compressor_keyed m1 o1 f1 ⟨[], 0⟩ =
        (.inst 0, ⟨[(_compressor_path o1 f1, 0)], 1⟩) := by
      unfold get_compressor_keyed
      rw [if_neg h1]
      rfl
    rw [e1]
    unfold get_compressor_keyed
    rw [if_neg h2]
    by_cases hp : _compressor_path o2 f2 = _compressor_path o1 f1
    · rw [hp]
      simp [List.lookup]
    · have hb : (_compressor_path o2 f2 == _compressor_path o1 f1) = false := by
        simpa using hp
      simp only [List.lookup, hb]
      simp [hp]
  · intro st o f
    unfold get_compressor_keyed
    rw [if_pos rfl]
  · intro st o f
    unfold get_compressor_keyed
    rw [if_pos rfl]

/-- A concrete instance of `C7_registry_keying_amended`: the same
(archive, entry) pair read twice yields the one shared instance, and a
STORED lookup leaves the dict alone while constructing a fresh identity
adapter. -/
theorem C7_registry_keying_witness :
    ((get_compressor_keyed ZIP_DEFLATED "out.zip" "f"
        (get_compressor_keyed ZIP_DEFLATED "out.zip" "f" ⟨[], 0⟩).2).1 =
      (get_compressor_keyed ZIP_DEFLATED "out.zip" "f" ⟨[], 0⟩).1 ↔
      _compressor_path "out.zip" "f" = _compressor_path "out.zip" "f") ∧
    (get_compressor_keyed ZIP_STORED "o" "g" ⟨[], 5⟩).2.table = [] ∧
    (get_compressor_keyed ZIP_STORED "o" "g" ⟨[], 5⟩).1 = .emptyCompress 5 := by
  have h := C7_registry_keying_amended "out.zip" "f" "out.zip" "f" ZIP_DEFLATED ZIP_DEFLATED
    (by decide) (by decide)
  exact ⟨h.1, h.2.1 ⟨[], 5⟩ "o" "g", h.2.2 ⟨[], 5⟩ "o" "g"⟩

/-- The interleaved adapter outputs the DEFLATE protocol produces: for
each chunk, a `compress` output followed by the with-block exit's
full-sync flush output. -/
def deflateOuts {σ : Type} (A : Adapter σ) : σ → List (List Nat) → σ × List Nat
  | s, [] => (s, [])
  | s, c :: cs =>
      let p := A.compress s c
      let q := A.flushSync p.1
      let r := deflateOuts A q.1 cs
      (r.1, p.2 ++ q.2 ++ r.2)

/-- Processing one more chunk appends its compress and sync-flush outputs. -/
theorem deflateOuts_append {σ : Type} (A : Adapter σ) (s : σ)
    (l : List (List Nat)) (c : List Nat) :
    deflateOuts A s (l ++ [c]) =
      ((A.flushSync (A.compress (deflateOuts A s l).1 c).1).1,
        (deflateOuts A s l).2 ++
          ((A.compress (deflateOuts A s l).1 c).2 ++
            (A.flushSync (A.compress (deflateOuts A s l).1 c).1).2)) := by
  induction l generalizing s with
  | nil => simp [deflateOuts]
  | cons d ds ih =>
      simp only [List.cons_append, deflateOuts]
      simp only [List.append_eq]
      rw [ih]
      simp [List.append_assoc]

/-- All bytes the archive holds for the entry after the full DEFLATE
protocol: the per-chunk interleaving followed by the final writer's
`close()` full-sync flush. -/
def deflateRunOuts {σ : Type} (A : Adapter σ) (chunks : List (List Nat)) : List Nat :=
  (deflateOuts A A.init chunks).2 ++
    (A.flushSync (deflateOuts A A.init chunks).1).2

/-- Appending data through `_write` against a present archive extends the
entry's data region in place: when the entry sits at offset 0 and neither
header write crosses the zip64 threshold (so both headers span exactly
30 + name bytes), the data region before the appended bytes is untouched
and the new bytes land right after it. -/
theorem _write_region (w : ChunkedWriter) (arch : Option Archive) (now : Nat)
    (chunk : Option (List Nat)) (data : List Nat)
    (h0 : w.zipinfo.header_offset = 0)
    (hz1 : force_zip64 (update_zip_info_time w.zipinfo now) = false)
    (hz2 : force_zip64 (wZi w now chunk data) = false) :
    readSeg (wArch w arch now chunk data).bytes
        (30 + (strBytes w.zipinfo.filename).length)
        (w.zipinfo.compress_size + data.length) =
      readSeg (fpOf arch).data (30 + (strBytes w.zipinfo.filename).length)
        w.zipinfo.compress_size ++ data := by
  have hh1 : (FileHeader (update_zip_info_time w.zipinfo now)
      (force_zip64 (update_zip_info_time w.zipinfo now))).length
      = 30 + (strBytes w.zipinfo.filename).length := by
    rw [hz1, FileHeader_length]
    simp [update_zip_info_time]
  have hh2 : (FileHeader (wZi w now chunk data)
      (force_zip64 (wZi w now chunk data))).length
      = 30 + (strBytes w.zipinfo.filename).length := by
    rw [hz2, FileHeader_length, wZi_filename]
    simp
  have hoff1 : (update_zip_info_time w.zipinfo now).header_offset = 0 := h0
  have hoff2 : (wZi w now chunk data).header_offset = 0 := by
    rw [wZi_header_offset]
    exact h0
  have hcs1 : (update_zip_info_time w.zipinfo now).compress_size
      = w.zipinfo.compress_size := rfl
  have hpos1 : (wS1 w arch now).pos = 30 + (strBytes w.zipinfo.filename).length := by
    unfold wS1
    simp only [WStream.write, WStream.seek, hoff1, hh1]
    omega
  show readSeg (wS3 w arch now chunk data).data _ _ = _
  simp only [wS3]
  rw [hoff2]
  rw [readSeg_write_outside _ 0 _ _ _ (Or.inl (by rw [hh2]; omega))]
  rw [readSeg_add]
  congr 1
  · simp only [wS2]
    rw [readSeg_write_outside _ _ _ _ _
      (Or.inr (le_of_eq (by rw [hpos1, hcs1])))]
    simp only [wS1]
    rw [hoff1]
    rw [readSeg_write_outside _ 0 _ _ _ (Or.inl (by rw [hh1]; omega))]
  · simp only [wS2]
    rw [show (wS1 w arch now).pos +
        (update_zip_info_time w.zipinfo now).compress_size =
        30 + (strBytes w.zipinfo.filename).length + w.zipinfo.compress_size
      from by rw [hpos1, hcs1]]
    exact readSeg_write_self _ _ data

/-- Reading zero bytes yields the empty list. -/
theorem readSeg_zero (f : Nat → Nat) (off : Nat) : readSeg f off 0 = [] := rfl

/-- A descriptor whose size stays under the zip64 margin is written
without zip64. -/
theorem force_zip64_false_of_le (zi : ZipInfo)
    (h : 105 * zi.file_size ≤ 100 * ZIP64_LIMIT) : force_zip64 zi = false := by
  simp only [force_zip64, decide_eq_false_iff_not]
  omega

/-- Updating with no chunk advances only `compress_size`. -/
theorem wZi_none (w : ChunkedWriter) (now : Nat) (d : List Nat) :
    wZi w now none d =
      ⟨w.zipinfo.filename, w.zipinfo.compress_type, now, w.zipinfo.CRC,
        w.zipinfo.file_size, w.zipinfo.compress_size + d.length,
        w.zipinfo.header_offset⟩ := rfl

/-- `compressed_write_chunk` always succeeds with the `_write` results and
leaves the compressed adapter state in the registry cell. -/
theorem compressed_write_chunk_eq {σ : Type} (A : Adapter σ) (w : ChunkedWriter)
    (arch : Option Archive) (reg : Option σ) (now : Nat) (chunk : List Nat) :
    compressed_write_chunk A w arch reg now chunk =
      .ok (wZi w now (some chunk) (A.compress (get_compressor A reg).1 chunk).2,
        wArch w arch now (some chunk) (A.compress (get_compressor A reg).1 chunk).2,
        some (A.compress (get_compressor A reg).1 chunk).1) := by
  unfold compressed_write_chunk
  simp only [_write_eq]
  rfl

/-- `close()` on a non-DEFLATE writer changes nothing. -/
theorem compressed_close_noop {σ : Type} (A : Adapter σ) (w : ChunkedWriter)
    (arch : Option Archive) (reg : Option σ) (now : Nat)
    (hc : w.compression ≠ ZIP_DEFLATED) :
    compressed_close A w arch reg now = .ok (w.zipinfo, arch, reg) := by
  unfold compressed_close
  rw [if_neg hc]

/-- `close()` on a DEFLATE writer whose sync flush returns nothing leaves
the archive as is and stores the flushed adapter state. -/
theorem compressed_close_empty {σ : Type} (A : Adapter σ) (w : ChunkedWriter)
    (arch : Option Archive) (reg : Option σ) (now : Nat)
    (hc : w.compression = ZIP_DEFLATED)
    (hq : (A.flushSync (get_compressor A reg).1).2 = []) :
    compressed_close A w arch reg now =
      .ok (w.zipinfo, arch, some (A.flushSync (get_compressor A reg).1).1) := by
  unfold compressed_close
  rw [if_pos hc, hq]
  simp

/-- `close()` on a DEFLATE writer with non-empty sync-flush output appends
it through `_write(None, result)`. -/
theorem compressed_close_write {σ : Type} (A : Adapter σ) (w : ChunkedWriter)
    (arch : Option Archive) (reg : Option σ) (now : Nat)
    (hc : w.compression = ZIP_DEFLATED)
    (hq : (A.flushSync (get_compressor A reg).1).2 ≠ []) :
    compressed_close A w arch reg now =
      .ok (wZi w now none (A.flushSync (get_compressor A reg).1).2,
        some (wArch w arch now none (A.flushSync (get_compressor A reg).1).2),
        some (A.flushSync (get_compressor A reg).1).1) := by
  unfold compressed_close
  rw [if_pos hc, if_neg (by simpa [List.length_eq_zero] using hq), _write_eq]

/-- `flush()` on a writer outside the terminal-flush family changes
nothing. -/
theorem compressed_flush_noop {σ : Type} (A : Adapter σ) (w : ChunkedWriter)
    (arch : Option Archive) (reg : Option σ) (now : Nat)
    (hc : ¬(w.compression = ZIP_BZIP2 ∨ w.compression = ZIP_LZMA)) :
    compressed_flush A w arch reg now = .ok (w.zipinfo, arch, reg) := by
  unfold compressed_flush
  rw [if_neg hc]

/-- One DEFLATE chunk iteration, written out: the chunk is compressed and
written, then the with-block exit's `close()` sync-flushes, appending its
output when non-empty. -/
theorem compressed_chunk_step_deflate {σ : Type} (A : Adapter σ)
    (o f : String) (now : Nat) (st : Option Archive × Option σ) (c : List Nat) :
    compressed_chunk_step A o f ZIP_DEFLATED now st c =
      (let zw := mkChunkedWriter o f ZIP_DEFLATED st.1 now
       let p := A.compress (get_compressor A st.2).1 c
       let q := A.flushSync p.1
       if q.2 = [] then (some (wArch zw st.1 now (some c) p.2), some q.1)
       else (some (wArch { zw with zipinfo := wZi zw now (some c) p.2 }
          (some (wArch zw st.1 now (some c) p.2)) now none q.2), some q.1)) := by
  simp only [compressed_chunk_step]
  rw [compressed_write_chunk_eq]
  dsimp only
  by_cases hq : (A.flushSync (A.compress (get_compressor A st.2).1 c).1).2 = []
  · rw [compressed_close_empty A _ _ _ _ (by with_unfolding_all rfl) (by exact hq)]
    dsimp only
    rw [if_pos hq]
    rfl
  · rw [compressed_close_write A _ _ _ _ (by with_unfolding_all rfl) (by exact hq)]
    dsimp only
    rw [if_neg hq]
    rfl

/-- Updating with a chunk folds it into the CRC and advances both
counters. -/
theorem wZi_some (w : ChunkedWriter) (now : Nat) (c d : List Nat) :
    wZi w now (some c) d =
      ⟨w.zipinfo.filename, w.zipinfo.compress_type, now, crc32 c w.zipinfo.CRC,
        w.zipinfo.file_size + c.length, w.zipinfo.compress_size + d.length,
        w.zipinfo.header_offset⟩ := rfl

/-- Filtering a single same-named entry leaves nothing. -/
theorem exclude_singleton (f : String) (zi : ZipInfo) (h : zi.filename = f) :
    _exclude_file_info f [zi] = [] := by
  simp [_exclude_file_info, h]

/-- Finding in a single same-named entry returns it. -/
theorem find_singleton (f : String) (zi : ZipInfo) (h : zi.filename = f) :
    [zi].find? (fun z => z.filename == f) = some zi := by
  simp [List.find?, h]

/-- Descriptor state of the DEFLATE protocol after a prefix of chunks:
counters over the bytes fed, compressed size equal to all interleaved
adapter output so far, header at offset 0. -/
def deflateInvZi {σ : Type} (A : Adapter σ) (filename_in_zip : String)
    (now : Nat) (done : List (List Nat)) : ZipInfo :=
  ⟨filename_in_zip, ZIP_DEFLATED, now, crcFold done, totalLen done,
    (deflateOuts A A.init done).2.length, 0⟩

/-- Loop invariant of the DEFLATE chunk loop, phrased through the
operations the next iteration performs: descriptor extraction yields the
prefix descriptor, the listing holds no other same-named entry, the
registry cell holds the adapter state of the interleaved run, the entry's
data region holds exactly the interleaved output, and (except before the
first chunk) the archive exists with the single tracked entry. -/
def DeflateInv {σ : Type} (A : Adapter σ) (filename_in_zip : String)
    (now : Nat) (done : List (List Nat)) (st : Option Archive × Option σ) : Prop :=
  _extract_zipinfo st.1 filename_in_zip ZIP_DEFLATED now =
      deflateInvZi A filename_in_zip now done ∧
  _exclude_file_info filename_in_zip (zipOpenAppend st.1).filelist = [] ∧
  (get_compressor A st.2).1 = (deflateOuts A A.init done).1 ∧
  readSeg (fpOf st.1).data (30 + (strBytes filename_in_zip).length)
      (deflateOuts A A.init done).2.length = (deflateOuts A A.init done).2 ∧
  (done = [] ∧ st = (none, none) ∨
    ∃ a, st.1 = some a ∧
      a.filelist = [deflateInvZi A filename_in_zip now done])

/-- The invariant holds before any chunk is processed. -/
theorem deflate_inv_init {σ : Type} (A : Adapter σ) (filename_in_zip : String)
    (now : Nat) :
    DeflateInv A filename_in_zip now [] (none, none) := by
  refine ⟨?_, rfl, rfl, rfl, Or.inl ⟨rfl, rfl⟩⟩
  show freshZipInfo filename_in_zip ZIP_DEFLATED now = _
  unfold freshZipInfo deflateInvZi crcFold totalLen deflateOuts
  simp

/-- Each DEFLATE chunk iteration preserves the loop invariant, as long
as the cumulative uncompressed size stays under the zip64 margin (so the
local header keeps its length). -/
theorem deflate_chunk_step_inv {σ : Type} (A : Adapter σ) (o f : String)
    (now : Nat) (done : List (List Nat)) (st : Option Archive × Option σ)
    (c : List Nat)
    (hsz : 105 * totalLen (done ++ [c]) ≤ 100 * ZIP64_LIMIT)
    (h : DeflateInv A f now done st) :
    DeflateInv A f now (done ++ [c])
      (compressed_chunk_step A o f ZIP_DEFLATED now st c) := by
  obtain ⟨h1, h2, h3, h4, _⟩ := h
  have hzw : (mkChunkedWriter o f ZIP_DEFLATED st.1 now).zipinfo
      = deflateInvZi A f now done := h1
  have hname : (mkChunkedWriter o f ZIP_DEFLATED st.1 now).zipinfo.filename = f := by
    rw [hzw]
    rfl
  have hfsz : (mkChunkedWriter o f ZIP_DEFLATED st.1 now).zipinfo.file_size
      = totalLen done := by
    rw [hzw]
    rfl
  have hcsz : (mkChunkedWriter o f ZIP_DEFLATED st.1 now).zipinfo.compress_size
      = (deflateOuts A A.init done).2.length := by
    rw [hzw]
    rfl
  have hoff : (mkChunkedWriter o f ZIP_DEFLATED st.1 now).zipinfo.header_offset = 0 := by
    rw [hzw]
    rfl
  have htot := totalLen_append done c
  have hle1 : 105 * totalLen done ≤ 100 * ZIP64_LIMIT := by omega
  have hle2 : 105 * (totalLen done + c.length) ≤ 100 * ZIP64_LIMIT := by omega
  have hz1 : force_zip64 (update_zip_info_time
      (mkChunkedWriter o f ZIP_DEFLATED st.1 now).zipinfo now) = false := by
    apply force_zip64_false_of_le
    show 105 * (mkChunkedWriter o f ZIP_DEFLATED st.1 now).zipinfo.file_size ≤ _
    rw [hfsz]
    exact hle1
  have hz2 : ∀ d : List Nat, force_zip64
      (wZi (mkChunkedWriter o f ZIP_DEFLATED st.1 now) now (some c) d) = false := by
    intro d
    apply force_zip64_false_of_le
    rw [wZi_some]
    show 105 * ((mkChunkedWriter o f ZIP_DEFLATED st.1 now).zipinfo.file_size + c.length) ≤ _
    rw [hfsz]
    exact hle2
  have hregion1 := _write_region (mkChunkedWriter o f ZIP_DEFLATED st.1 now) st.1 now
    (some c) (A.compress (deflateOuts A A.init done).1 c).2 hoff hz1 (hz2 _)
  rw [hname, hcsz, h4] at hregion1
  have hziMid : wZi (mkChunkedWriter o f ZIP_DEFLATED st.1 now) now (some c)
      (A.compress (deflateOuts A A.init done).1 c).2
      = ⟨f, ZIP_DEFLATED, now, crc32 c (crcFold done), totalLen done + c.length,
          (deflateOuts A A.init done).2.length +
            (A.compress (deflateOuts A A.init done).1 c).2.length, 0⟩ := by
    rw [wZi_some, hzw]
    rfl
  rw [compressed_chunk_step_deflate A o f now st c]
  dsimp only
  rw [h3]
  by_cases hq : (A.flushSync (A.compress (deflateOuts A A.init done).1 c).1).2 = []
  · rw [if_pos hq]
    have houts : (deflateOuts A A.init (done ++ [c])).2 =
        (deflateOuts A A.init done).2 ++
          (A.compress (deflateOuts A A.init done).1 c).2 := by
      rw [deflateOuts_append, hq]
      simp
    have hlen : (deflateOuts A A.init (done ++ [c])).2.length =
        (deflateOuts A A.init done).2.length +
          (A.compress (deflateOuts A A.init done).1 c).2.length := by
      rw [houts, List.length_append]
    have hziNew : wZi (mkChunkedWriter o f ZIP_DEFLATED st.1 now) now (some c)
        (A.compress (deflateOuts A A.init done).1 c).2
        = deflateInvZi A f now (done ++ [c]) := by
      rw [hziMid]
      unfold deflateInvZi
      rw [crcFold_append, totalLen_append, hlen]
    have hflist : (wArch (mkChunkedWriter o f ZIP_DEFLATED st.1 now) st.1 now (some c)
        (A.compress (deflateOuts A A.init done).1 c).2).filelist
        = [deflateInvZi A f now (done ++ [c])] := by
      rw [wArch_filelist, mkChunkedWriter_filename, h2, hziNew]
      rfl
    have hstate : (deflateOuts A A.init (done ++ [c])).1 =
        (A.flushSync (A.compress (deflateOuts A A.init done).1 c).1).1 := by
      rw [deflateOuts_append]
    refine ⟨?_, ?_, ?_, ?_, Or.inr ⟨_, rfl, hflist⟩⟩
    · show _extract_zipinfo (some _) f ZIP_DEFLATED now = _
      rw [_extract_zipinfo_some, hflist, find_singleton f _ rfl]
    · show _exclude_file_info f (wArch _ _ _ _ _).filelist = []
      rw [hflist]
      exact exclude_singleton f _ rfl
    · show (A.flushSync (A.compress (deflateOuts A A.init done).1 c).1).1 = _
      rw [hstate]
    · show readSeg (wArch _ _ _ _ _).bytes _ _ = _
      rw [hlen, houts]
      exact hregion1
  · rw [if_neg hq]
    have hz1b : force_zip64 (update_zip_info_time
        ({ mkChunkedWriter o f ZIP_DEFLATED st.1 now with
            zipinfo := wZi (mkChunkedWriter o f ZIP_DEFLATED st.1 now) now (some c)
              (A.compress (deflateOuts A A.init done).1 c).2 } :
          ChunkedWriter).zipinfo now) = false := by
      apply force_zip64_false_of_le
      show 105 * (wZi (mkChunkedWriter o f ZIP_DEFLATED st.1 now) now (some c)
          (A.compress (deflateOuts A A.init done).1 c).2).file_size ≤ _
      rw [hziMid]
      exact hle2
    have hz2b : force_zip64 (wZi { mkChunkedWriter o f ZIP_DEFLATED st.1 now with
        zipinfo := wZi (mkChunkedWriter o f ZIP_DEFLATED st.1 now) now (some c)
          (A.compress (deflateOuts A A.init done).1 c).2 } now none
        (A.flushSync (A.compress (deflateOuts A A.init done).1 c).1).2) = false := by
      apply force_zip64_false_of_le
      rw [wZi_none]
      show 105 * (wZi (mkChunkedWriter o f ZIP_DEFLATED st.1 now) now (some c)
          (A.compress (deflateOuts A A.init done).1 c).2).file_size ≤ _
      rw [hziMid]
      exact hle2
    have hregion2 := _write_region { mkChunkedWriter o f ZIP_DEFLATED st.1 now with
        zipinfo := wZi (mkChunkedWriter o f ZIP_DEFLATED st.1 now) now (some c)
          (A.compress (deflateOuts A A.init done).1 c).2 }
      (some (wArch (mkChunkedWriter o f ZIP_DEFLATED st.1 now) st.1 now (some c)
        (A.compress (deflateOuts A A.init done).1 c).2)) now none
      (A.flushSync (A.compress (deflateOuts A A.init done).1 c).1).2
      (by rw [wZi_header_offset]; exact hoff) hz1b hz2b
    rw [show ({ mkChunkedWriter o f ZIP_DEFLATED st.1 now with
        zipinfo := wZi (mkChunkedWriter o f ZIP_DEFLATED st.1 now) now (some c)
          (A.compress (deflateOuts A A.init done).1 c).2 } :
        ChunkedWriter).zipinfo.filename = f from by rw [wZi_filename]; exact hname] at hregion2
    rw [show ({ mkChunkedWriter o f ZIP_DEFLATED st.1 now with
        zipinfo := wZi (mkChunkedWriter o f ZIP_DEFLATED st.1 now) now (some c)
          (A.compress (deflateOuts A A.init done).1 c).2 } :
        ChunkedWriter).zipinfo.compress_size =
        (deflateOuts A A.init done).2.length +
          (A.compress (deflateOuts A A.init done).1 c).2.length from by
      rw [wZi_compress_size, hcsz]] at hregion2
    have hfp : (fpOf (some (wArch (mkChunkedWriter o f ZIP_DEFLATED st.1 now) st.1 now
        (some c) (A.compress (deflateOuts A A.init done).1 c).2))).data =
        (wArch (mkChunkedWriter o f ZIP_DEFLATED st.1 now) st.1 now
          (some c) (A.compress (deflateOuts A A.init done).1 c).2).bytes := rfl
    rw [hfp, hregion1] at hregion2
    have houts : (deflateOuts A A.init (done ++ [c])).2 =
        (deflateOuts A A.init done).2 ++
          ((A.compress (deflateOuts A A.init done).1 c).2 ++
            (A.flushSync (A.compress (deflateOuts A A.init done).1 c).1).2) := by
      rw [deflateOuts_append]
    have hlen : (deflateOuts A A.init (done ++ [c])).2.length =
        (deflateOuts A A.init done).2.length +
          (A.compress (deflateOuts A A.init done).1 c).2.length +
          (A.flushSync (A.compress (deflateOuts A A.init done).1 c).1).2.length := by
      rw [houts]
      simp [List.length_append]
      omega
    have hziNew : wZi { mkChunkedWriter o f ZIP_DEFLATED st.1 now with
        zipinfo := wZi (mkChunkedWriter o f ZIP_DEFLATED st.1 now) now (some c)
          (A.compress (deflateOuts A A.init done).1 c).2 } now none
        (A.flushSync (A.compress (deflateOuts A A.init done).1 c).1).2
        = deflateInvZi A f now (done ++ [c]) := by
      rw [wZi_none]
      show (⟨(wZi (mkChunkedWriter o f ZIP_DEFLATED st.1 now) now (some c)
          (A.compress (deflateOuts A A.init done).1 c).2).filename, _, now, _, _, _, _⟩ : ZipInfo) = _
      rw [hziMid]
      unfold deflateInvZi
      rw [crcFold_append, totalLen_append, hlen]
    have hflist1 : (wArch (mkChunkedWriter o f ZIP_DEFLATED st.1 now) st.1 now (some c)
        (A.compress (deflateOuts A A.init done).1 c).2).filelist
        = [wZi (mkChunkedWriter o f ZIP_DEFLATED st.1 now) now (some c)
            (A.compress (deflateOuts A A.init done).1 c).2] := by
      rw [wArch_filelist, mkChunkedWriter_filename, h2]
      rfl
    have hflist : (wArch { mkChunkedWriter o f ZIP_DEFLATED st.1 now with
        zipinfo := wZi (mkChunkedWriter o f ZIP_DEFLATED st.1 now) now (some c)
          (A.compress (deflateOuts A A.init done).1 c).2 }
        (some (wArch (mkChunkedWriter o f ZIP_DEFLATED st.1 now) st.1 now (some c)
          (A.compress (deflateOuts A A.init done).1 c).2)) now none
        (A.flushSync (A.compress (deflateOuts A A.init done).1 c).1).2).filelist
        = [deflateInvZi A f now (done ++ [c])] := by
      rw [wArch_filelist, hziNew]
      show _exclude_file_info f (wArch _ _ _ _ _).filelist ++ _ = _
      rw [hflist1, exclude_singleton f _ (by rw [hziMid])]
      rfl
    have hstate : (deflateOuts A A.init (done ++ [c])).1 =
        (A.flushSync (A.compress (deflateOuts A A.init done).1 c).1).1 := by
      rw [deflateOuts_append]
    refine ⟨?_, ?_, ?_, ?_, Or.inr ⟨_, rfl, hflist⟩⟩
    · show _extract_zipinfo (some _) f ZIP_DEFLATED now = _
      rw [_extract_zipinfo_some, hflist, find_singleton f _ rfl]
    · show _exclude_file_info f (wArch _ _ _ _ _).filelist = []
      rw [hflist]
      exact exclude_singleton f _ rfl
    · show (A.flushSync (A.compress (deflateOuts A A.init done).1 c).1).1 = _
      rw [hstate]
    · show readSeg (wArch _ _ _ _ _).bytes _ _ = _
      rw [hlen, houts]
      rw [show (deflateOuts A A.init done).2.length +
          (A.compress (deflateOuts A A.init done).1 c).2.length +
          (A.flushSync (A.compress (deflateOuts A A.init done).1 c).1).2.length =
          ((deflateOuts A A.init done).2.length +
            (A.compress (deflateOuts A A.init done).1 c).2.length) +
          (A.flushSync (A.compress (deflateOuts A A.init done).1 c).1).2.length from rfl]
      rw [hregion2]
      rw [List.append_assoc]

/-- The DEFLATE chunk loop from nothing establishes the invariant at the
full chunk list, provided the total uncompressed size stays under the
zip64 margin. -/
theorem deflate_run_inv {σ : Type} (A : Adapter σ) (o f : String) (now : Nat)
    (chunks : List (List Nat))
    (hsz : 105 * totalLen chunks ≤ 100 * ZIP64_LIMIT) :
    DeflateInv A f now chunks
      (chunks.foldl (compressed_chunk_step A o f ZIP_DEFLATED now) (none, none)) := by
  suffices h : ∀ (l done : List (List Nat)) (st : Option Archive × Option σ),
      105 * totalLen (done ++ l) ≤ 100 * ZIP64_LIMIT →
      DeflateInv A f now done st →
      DeflateInv A f now (done ++ l)
        (l.foldl (compressed_chunk_step A o f ZIP_DEFLATED now) st) by
    have h2 := h chunks [] (none, none) (by simpa using hsz) (deflate_inv_init A f now)
    simpa using h2
  intro l
  induction l with
  | nil =>
      intro done st hb hP
      simpa using hP
  | cons c cs ih =>
      intro done st hb hP
      rw [List.foldl_cons]
      have e1 : totalLen (done ++ c :: cs) = totalLen done + c.length + totalLen cs := by
        simp [totalLen]
        omega
      have e2 := totalLen_append done c
      have hb1 : 105 * totalLen (done ++ [c]) ≤ 100 * ZIP64_LIMIT := by omega
      have h1 := deflate_chunk_step_inv A o f now done st c hb1 hP
      have h2 := ih (done ++ [c]) _ (by simpa [List.append_assoc] using hb) h1
      simpa [List.append_assoc] using h2

/-- The non-STORED tail of `zip_file_in_chunks` for DEFLATE, written out:
after the chunk loop, the final fresh writer's `flush()` is a no-op and
its `close()` on exit sync-flushes the shared adapter, appending the
output when non-empty. -/
theorem zip_file_in_chunks_deflate_eq {σ : Type} (A : Adapter σ)
    (o f : String) (chunks : List (List Nat)) (now : Nat) :
    zip_file_in_chunks A o f ZIP_DEFLATED chunks now =
      (let st := chunks.foldl (compressed_chunk_step A o f ZIP_DEFLATED now) (none, none)
       let zw := mkChunkedWriter o f ZIP_DEFLATED st.1 now
       let q := A.flushSync (get_compressor A st.2).1
       if q.2 = [] then (st.1, some q.1)
       else (some (wArch zw st.1 now none q.2), some q.1)) := by
  unfold zip_file_in_chunks
  rw [if_neg (by decide : ¬(ZIP_DEFLATED = ZIP_STORED))]
  dsimp only
  rw [compressed_flush_noop A _ _ _ _ (by
    show ¬(ZIP_DEFLATED = ZIP_BZIP2 ∨ ZIP_DEFLATED = ZIP_LZMA)
    decide)]
  dsimp only
  by_cases hq : (A.flushSync (get_compressor A
      (chunks.foldl (compressed_chunk_step A o f ZIP_DEFLATED now) (none, none)).2).1).2 = []
  · rw [compressed_close_empty A _ _ _ _ (by with_unfolding_all rfl) (by exact hq)]
    dsimp only
    rw [if_pos hq]
  · rw [compressed_close_write A _ _ _ _ (by with_unfolding_all rfl) (by exact hq)]
    dsimp only
    rw [if_neg hq]

/-- C10: in `zip_file_in_chunks` with DEFLATE, every per-chunk writer is a
context manager whose exit runs `close()`, so the shared compressor's
full-sync flush output is appended after every single chunk; the final
`flush()`-only writer also runs `close()` on exit.  Consequently the
entry's data region holds exactly the per-chunk interleaving of compress
and sync-flush outputs followed by the final close's flush output, and
the entry's `compress_size` counts all of it. -/
theorem C10_deflate_close_per_chunk {σ : Type} (A : Adapter σ)
    (output_zip filename_in_zip : String) (now : Nat)
    (chunks : List (List Nat)) (hne : chunks ≠ [])
    (hsz : 105 * totalLen chunks ≤ 100 * ZIP64_LIMIT) :
    ∃ a, (zip_file_in_chunks A output_zip filename_in_zip ZIP_DEFLATED chunks now).1
        = some a ∧
      ∃ zi, a.filelist = [zi] ∧ zi.filename = filename_in_zip ∧
        zi.compress_size = (deflateRunOuts A chunks).length ∧
        readSeg a.bytes (30 + (strBytes filename_in_zip).length)
          (deflateRunOuts A chunks).length = deflateRunOuts A chunks := by
  obtain ⟨h1, h2, h3, h4, hd⟩ :=
    deflate_run_inv A output_zip filename_in_zip now chunks hsz
  rcases hd with ⟨hchunks, _⟩ | ⟨a, ha, hl⟩
  · exact absurd hchunks hne
  rw [zip_file_in_chunks_deflate_eq]
  dsimp only
  rw [h3]
  have hzw : (mkChunkedWriter output_zip filename_in_zip ZIP_DEFLATED
      (chunks.foldl (compressed_chunk_step A output_zip filename_in_zip
        ZIP_DEFLATED now) (none, none)).1 now).zipinfo
      = deflateInvZi A filename_in_zip now chunks := h1
  by_cases hq : (A.flushSync (deflateOuts A A.init chunks).1).2 = []
  · rw [if_pos hq]
    refine ⟨a, ha, deflateInvZi A filename_in_zip now chunks, hl, rfl, ?_, ?_⟩
    · show (deflateOuts A A.init chunks).2.length = _
      unfold deflateRunOuts
      rw [hq, List.append_nil]
    · rw [ha] at h4
      unfold deflateRunOuts
      rw [hq, List.append_nil]
      exact h4
  · rw [if_neg hq]
    have hname : (mkChunkedWriter output_zip filename_in_zip ZIP_DEFLATED
        (chunks.foldl (compressed_chunk_step A output_zip filename_in_zip
          ZIP_DEFLATED now) (none, none)).1 now).zipinfo.filename
        = filename_in_zip := by
      rw [hzw]
      rfl
    have hfsz : (mkChunkedWriter output_zip filename_in_zip ZIP_DEFLATED
        (chunks.foldl (compressed_chunk_step A output_zip filename_in_zip
          ZIP_DEFLATED now) (none, none)).1 now).zipinfo.file_size
        = totalLen chunks := by
      rw [hzw]
      rfl
    have hcsz : (mkChunkedWriter output_zip filename_in_zip ZIP_DEFLATED
        (chunks.foldl (compressed_chunk_step A output_zip filename_in_zip
          ZIP_DEFLATED now) (none, none)).1 now).zipinfo.compress_size
        = (deflateOuts A A.init chunks).2.length := by
      rw [hzw]
      rfl
    have hoff : (mkChunkedWriter output_zip filename_in_zip ZIP_DEFLATED
        (chunks.foldl (compressed_chunk_step A output_zip filename_in_zip
          ZIP_DEFLATED now) (none, none)).1 now).zipinfo.header_offset = 0 := by
      rw [hzw]
      rfl
    have hz1 : force_zip64 (update_zip_info_time
        (mkChunkedWriter output_zip filename_in_zip ZIP_DEFLATED
          (chunks.foldl (compressed_chunk_step A output_zip filename_in_zip
            ZIP_DEFLATED now) (none, none)).1 now).zipinfo now) = false := by
      apply force_zip64_false_of_le
      show 105 * (mkChunkedWriter output_zip filename_in_zip ZIP_DEFLATED
        (chunks.foldl (compressed_chunk_step A output_zip filename_in_zip
          ZIP_DEFLATED now) (none, none)).1 now).zipinfo.file_size ≤ _
      rw [hfsz]
      exact hsz
    have hz2 : force_zip64 (wZi (mkChunkedWriter output_zip filename_in_zip ZIP_DEFLATED
        (chunks.foldl (compressed_chunk_step A output_zip filename_in_zip
          ZIP_DEFLATED now) (none, none)).1 now) now none
        (A.flushSync (deflateOuts A A.init chunks).1).2) = false := by
      apply force_zip64_false_of_le
      rw [wZi_none]
      show 105 * (mkChunkedWriter output_zip filename_in_zip ZIP_DEFLATED
        (chunks.foldl (compressed_chunk_step A output_zip filename_in_zip
          ZIP_DEFLATED now) (none, none)).1 now).zipinfo.file_size ≤ _
      rw [hfsz]
      exact hsz
    have hregion := _write_region (mkChunkedWriter output_zip filename_in_zip ZIP_DEFLATED
        (chunks.foldl (compressed_chunk_step A output_zip filename_in_zip
          ZIP_DEFLATED now) (none, none)).1 now)
      (chunks.foldl (compressed_chunk_step A output_zip filename_in_zip
        ZIP_DEFLATED now) (none, none)).1 now none
      (A.flushSync (deflateOuts A A.init chunks).1).2 hoff hz1 hz2
    rw [hname, hcsz, h4] at hregion
    have hziNew : wZi (mkChunkedWriter output_zip filename_in_zip ZIP_DEFLATED
        (chunks.foldl (compressed_chunk_step A output_zip filename_in_zip
          ZIP_DEFLATED now) (none, none)).1 now) now none
        (A.flushSync (deflateOuts A A.init chunks).1).2
        = ⟨filename_in_zip, ZIP_DEFLATED, now, crcFold chunks, totalLen chunks,
            (deflateOuts A A.init chunks).2.length +
              (A.flushSync (deflateOuts A A.init chunks).1).2.length, 0⟩ := by
      rw [wZi_none, hzw]
      rfl
    have hflist : (wArch (mkChunkedWriter output_zip filename_in_zip ZIP_DEFLATED
        (chunks.foldl (compressed_chunk_step A output_zip filename_in_zip
          ZIP_DEFLATED now) (none, none)).1 now)
        (chunks.foldl (compressed_chunk_step A output_zip filename_in_zip
          ZIP_DEFLATED now) (none, none)).1 now none
        (A.flushSync (deflateOuts A A.init chunks).1).2).filelist
        = [wZi (mkChunkedWriter output_zip filename_in_zip ZIP_DEFLATED
            (chunks.foldl (compressed_chunk_step A output_zip filename_in_zip
              ZIP_DEFLATED now) (none, none)).1 now) now none
            (A.flushSync (deflateOuts A A.init chunks).1).2] := by
      rw [wArch_filelist, mkChunkedWriter_filename, h2]
      rfl
    refine ⟨_, rfl, _, hflist, ?_, ?_, ?_⟩
    · rw [hziNew]
    · rw [hziNew]
      show (deflateOuts A A.init chunks).2.length +
          (A.flushSync (deflateOuts A A.init chunks).1).2.length = _
      unfold deflateRunOuts
      rw [List.length_append]
    · show readSeg (wArch _ _ _ _ _).bytes _ _ = _
      unfold deflateRunOuts
      rw [List.length_append]
      exact hregion

/-- A concrete instance of `C10_deflate_close_per_chunk`: two chunks
through the always-flushing adapter leave exactly the interleaved
compress/sync-flush outputs in the archive. -/
theorem C10_deflate_close_per_chunk_witness :
    ∃ a, (zip_file_in_chunks bufAdapter "out.zip" "f" ZIP_DEFLATED [[5], [6]] 0).1
        = some a ∧
      ∃ zi, a.filelist = [zi] ∧ zi.filename = "f" ∧
        zi.compress_size = (deflateRunOuts bufAdapter [[5], [6]]).length ∧
        readSeg a.bytes (30 + (strBytes "f").length)
          (deflateRunOuts bufAdapter [[5], [6]]).length
          = deflateRunOuts bufAdapter [[5], [6]] :=
  C10_deflate_close_per_chunk bufAdapter "out.zip" "f" 0 [[5], [6]]
    (by decide) (by decide)

/-- A single byte outside the region a `write` covered is unchanged. -/
theorem write_data_outside (s : WStream) (p : Nat) (bs : List Nat) (i : Nat)
    (h : i < p ∨ p + bs.length ≤ i) :
    (((s.seek p).write bs).data) i = s.data i := by
  simp only [WStream.write, WStream.seek]
  rw [if_neg]
  rintro ⟨h1, h2⟩
  rcases h with h | h
  · omega
  · omega

/-- `getD` within a replicate reads the replicated element. -/
theorem getD_replicate_of_lt (n m a d : Nat) (h : m < n) :
    (List.replicate n a).getD m d = a := by
  rw [List.getD_eq_getElem?_getD,
    List.getElem?_eq_getElem (by simpa using h)]
  simp

set_option maxRecDepth 4000 in
/-- C1 (failing input): a fresh archive, STORED, entry "f", and a single
chunk of 2^31 bytes of value 7.  The chunk write's first header (sizes
still zero) spans 31 bytes, so the data lands at offset 31; the
post-update rewrite crosses the zip64 margin and emits a 51-byte header,
overwriting the first 20 data bytes, and the reader — following the
header's name/extra length fields — starts the data region at offset 51,
so the entry reads back with its final byte 0 instead of 7: the archive
does not decompress to the original bytes. -/
theorem C1_roundtrip_zip64_overwrite :
    ∃ a, (zip_file_in_chunks idAdapter "out.zip" "f" ZIP_STORED
        [List.replicate (2 ^ 31) 7] 0).1 = some a ∧
      readEntryData a "f" ≠ some (List.replicate (2 ^ 31) 7) := by
  have hlen : (List.replicate (2 ^ 31) (7 : Nat)).length = 2 ^ 31 :=
    List.length_replicate _ _
  have hrun : (zip_file_in_chunks idAdapter "out.zip" "f" ZIP_STORED
      [List.replicate (2 ^ 31) 7] 0).1 =
      some (wArch (mkChunkedWriter "out.zip" "f" ZIP_STORED none 0) none 0
        (some (List.replicate (2 ^ 31) 7)) (List.replicate (2 ^ 31) 7)) := by
    rw [zip_file_in_chunks_stored]
    show [List.replicate (2 ^ 31) (7 : Nat)].foldl
      (stored_chunk_step "out.zip" "f" 0) none = _
    rw [List.foldl_cons, List.foldl_nil, stored_chunk_step_eq]
  have hfs0 : (mkChunkedWriter "out.zip" "f" ZIP_STORED none 0).zipinfo.file_size
      = 0 := rfl
  have hcs0 : (mkChunkedWriter "out.zip" "f" ZIP_STORED none 0).zipinfo.compress_size
      = 0 := rfl
  have hfz1 : force_zip64 (update_zip_info_time
      (mkChunkedWriter "out.zip" "f" ZIP_STORED none 0).zipinfo 0) = false := by
    unfold force_zip64
    rw [show (update_zip_info_time
      (mkChunkedWriter "out.zip" "f" ZIP_STORED none 0).zipinfo 0).file_size = 0 from rfl]
    decide
  have hfs2 : (wZi (mkChunkedWriter "out.zip" "f" ZIP_STORED none 0) 0
      (some (List.replicate (2 ^ 31) 7)) (List.replicate (2 ^ 31) 7)).file_size
      = 2 ^ 31 := by
    rw [wZi_some_file_size, hfs0, hlen, Nat.zero_add]
  have hcs2 : (wZi (mkChunkedWriter "out.zip" "f" ZIP_STORED none 0) 0
      (some (List.replicate (2 ^ 31) 7)) (List.replicate (2 ^ 31) 7)).compress_size
      = 2 ^ 31 := by
    rw [wZi_compress_size, hcs0, hlen, Nat.zero_add]
  have hoff2 : (wZi (mkChunkedWriter "out.zip" "f" ZIP_STORED none 0) 0
      (some (List.replicate (2 ^ 31) 7)) (List.replicate (2 ^ 31) 7)).header_offset
      = 0 := by
    rw [wZi_header_offset]
    rfl
  have hname2 : (wZi (mkChunkedWriter "out.zip" "f" ZIP_STORED none 0) 0
      (some (List.replicate (2 ^ 31) 7)) (List.replicate (2 ^ 31) 7)).filename
      = "f" := by
    rw [wZi_filename]
    rfl
  have hfz2 : force_zip64 (wZi (mkChunkedWriter "out.zip" "f" ZIP_STORED none 0) 0
      (some (List.replicate (2 ^ 31) 7)) (List.replicate (2 ^ 31) 7)) = true := by
    unfold force_zip64
    rw [hfs2]
    decide
  have hh2len : (FileHeader (wZi (mkChunkedWriter "out.zip" "f" ZIP_STORED none 0) 0
      (some (List.replicate (2 ^ 31) 7)) (List.replicate (2 ^ 31) 7))
      (force_zip64 (wZi (mkChunkedWriter "out.zip" "f" ZIP_STORED none 0) 0
        (some (List.replicate (2 ^ 31) 7)) (List.replicate (2 ^ 31) 7)))).length
      = 51 := by
    rw [hfz2, FileHeader_length, hname2]
    rfl
  have hh1len : (FileHeader (update_zip_info_time
      (mkChunkedWriter "out.zip" "f" ZIP_STORED none 0).zipinfo 0)
      (force_zip64 (update_zip_info_time
        (mkChunkedWriter "out.zip" "f" ZIP_STORED none 0).zipinfo 0))).length
      = 31 := by
    rw [hfz1, FileHeader_length]
    rfl
  have hpos1 : (wS1 (mkChunkedWriter "out.zip" "f" ZIP_STORED none 0) none 0).pos
      = 31 := by
    simp only [wS1, WStream.write, WStream.seek]
    rw [hh1len]
    rfl
  -- the byte just past the true end of the shifted data region is 0, not 7
  have hbyte : (wArch (mkChunkedWriter "out.zip" "f" ZIP_STORED none 0) none 0
      (some (List.replicate (2 ^ 31) 7)) (List.replicate (2 ^ 31) 7)).bytes
      (2 ^ 31 + 50) = 0 := by
    rw [wArch_bytes]
    simp only [wS3]
    rw [write_data_outside _ _ _ _ (Or.inr (by rw [hoff2, hh2len]; decide))]
    simp only [wS2]
    rw [write_data_outside _ _ _ _ (Or.inr (by
      rw [hpos1, hlen]
      rw [show (update_zip_info_time
        (mkChunkedWriter "out.zip" "f" ZIP_STORED none 0).zipinfo 0).compress_size
        = 0 from rfl]
      decide))]
    simp only [wS1]
    rw [write_data_outside _ _ _ _ (Or.inr (by
      rw [hh1len]
      rw [show (update_zip_info_time
        (mkChunkedWriter "out.zip" "f" ZIP_STORED none 0).zipinfo 0).header_offset
        = 0 from rfl]
      decide))]
    rfl
  have hflist : (wArch (mkChunkedWriter "out.zip" "f" ZIP_STORED none 0) none 0
      (some (List.replicate (2 ^ 31) 7)) (List.replicate (2 ^ 31) 7)).filelist
      = [wZi (mkChunkedWriter "out.zip" "f" ZIP_STORED none 0) 0
          (some (List.replicate (2 ^ 31) 7)) (List.replicate (2 ^ 31) 7)] := by
    rw [wArch_filelist, mkChunkedWriter_filename]
    rfl
  have h26 : u16At (wArch (mkChunkedWriter "out.zip" "f" ZIP_STORED none 0) none 0
      (some (List.replicate (2 ^ 31) 7)) (List.replicate (2 ^ 31) 7)).bytes
      ((wZi (mkChunkedWriter "out.zip" "f" ZIP_STORED none 0) 0
        (some (List.replicate (2 ^ 31) 7)) (List.replicate (2 ^ 31) 7)).header_offset
        + 26) = 1 := by
    rw [wArch_bytes]
    simp only [wS3]
    rw [u16At_header_26, hname2]
    rfl
  have h28 : u16At (wArch (mkChunkedWriter "out.zip" "f" ZIP_STORED none 0) none 0
      (some (List.replicate (2 ^ 31) 7)) (List.replicate (2 ^ 31) 7)).bytes
      ((wZi (mkChunkedWriter "out.zip" "f" ZIP_STORED none 0) 0
        (some (List.replicate (2 ^ 31) 7)) (List.replicate (2 ^ 31) 7)).header_offset
        + 28) = 20 := by
    rw [wArch_bytes]
    simp only [wS3]
    rw [u16At_header_28, hfz2]
    rfl
  have hread : readEntryData (wArch (mkChunkedWriter "out.zip" "f" ZIP_STORED none 0)
      none 0 (some (List.replicate (2 ^ 31) 7)) (List.replicate (2 ^ 31) 7)) "f"
      = some (readSeg (wArch (mkChunkedWriter "out.zip" "f" ZIP_STORED none 0) none 0
          (some (List.replicate (2 ^ 31) 7)) (List.replicate (2 ^ 31) 7)).bytes
          51 (2 ^ 31)) := by
    unfold readEntryData
    rw [hflist, find_singleton "f" _ hname2]
    dsimp only
    rw [h26, h28, hcs2, hoff2]
  refine ⟨_, hrun, ?_⟩
  rw [hread]
  intro hcontra
  have hEq : readSeg (wArch (mkChunkedWriter "out.zip" "f" ZIP_STORED none 0) none 0
      (some (List.replicate (2 ^ 31) 7)) (List.replicate (2 ^ 31) 7)).bytes
      51 (2 ^ 31) = List.replicate (2 ^ 31) 7 := by
    exact Option.some.inj hcontra
  have hidx : (2 ^ 31 : Nat) - 1 < 2 ^ 31 := by decide
  have hL := readSeg_getD (wArch (mkChunkedWriter "out.zip" "f" ZIP_STORED none 0)
      none 0 (some (List.replicate (2 ^ 31) 7)) (List.replicate (2 ^ 31) 7)).bytes
      51 (2 ^ 31) (2 ^ 31 - 1) hidx
  rw [hEq] at hL
  rw [getD_replicate_of_lt _ _ _ _ hidx] at hL
  rw [show (51 : Nat) + (2 ^ 31 - 1) = 2 ^ 31 + 50 from by decide] at hL
  rw [hbyte] at hL
  exact absurd hL (by decide)
